import Mathlib

/-!
Verification of the product-launch-assistant backend (`src/backend/src`).

The Python modules are shallowly embedded: dict-shaped pipeline state becomes
an association list from string keys to a value type, every external call
(text-generation backend, web-search HTTP call, `json.loads`, the clock)
becomes an explicit oracle parameter, and each Python function becomes a total
Lean function mirroring the source line by line.  Functions that the source
runs for effect additionally return the list of state keys they assigned
(the write log) and, where a claim needs it, a trace of backend calls.
-/

namespace PLA

/-! ### Python string primitives

Models of the Python `str` operations used by the backend, working on the
character list underlying a `String`. -/

/-- Model of Python `str.lower` on a character list (per-character lowering). -/
def lowerL (l : List Char) : List Char := l.map Char.toLower

/-- Model of Python `str.lower`. -/
def pyLower (s : String) : String := ⟨lowerL s.data⟩

/-- Model of Python `str.strip` acting from the left. -/
def lstripL (l : List Char) : List Char := l.dropWhile Char.isWhitespace

/-- Model of Python `str.strip` acting from the right. -/
def rstripL (l : List Char) : List Char := (l.reverse.dropWhile Char.isWhitespace).reverse

/-- Model of Python `str.strip` on a character list. -/
def pyStripL (l : List Char) : List Char := rstripL (lstripL l)

/-- Model of Python `str.strip`. -/
def pyStrip (s : String) : String := ⟨pyStripL s.data⟩

/-- Model of Python `len` on a string (number of characters). -/
def pyLen (s : String) : Nat := s.data.length

/-- Model of the Python substring test `needle in hay`. -/
def pyIn (needle hay : String) : Bool := decide (needle.data <:+: hay.data)

/-- Model of Python `str.split()` (split on whitespace runs, dropping empties). -/
def pySplitWs (s : String) : List String :=
  (s.split Char.isWhitespace).filter (fun w => w ≠ "")

/-- Model of the Python slice `s[:n]`. -/
def pyTake (s : String) (n : Nat) : String := ⟨s.data.take n⟩

/-- Model of the Python slice `s[n:]`. -/
def pyDrop (s : String) (n : Nat) : String := ⟨s.data.drop n⟩

/-- Model of Python `l[-n:]` on lists (the last `n` elements). -/
def lastN {α : Type} (l : List α) (n : Nat) : List α := l.drop (l.length - n)

/-! ### `config.py` constants -/

/-- `config.MARKET_RESEARCH_MIN_CHARS`. -/
def MARKET_RESEARCH_MIN_CHARS : Nat := 800

/-- `getattr(llm, "model", "primary")` for the primary `ChatGradient` client. -/
def primaryModelName : String := "llama3.3-70b-instruct"

/-- `getattr(llm_fallback, "model", "fallback")` for the fallback client. -/
def fallbackModelName : String := "llama3.1-8b-instruct"

/-! ### `quality.py` -/

/-- The `failure_indicators` list in `assess_quality`. -/
def failure_indicators : List String :=
  ["⚠️ generation failed",
   "generation failed after retries",
   "api error:",
   "search api error:",
   "web search unavailable:",
   "failed to generate",
   "unable to generate",
   "generation error:",
   "api unavailable"]

/-- The `section_indicators` list in `assess_quality`. -/
def section_indicators : List String :=
  ["1.", "2.", "3.", "•", "-", "*", "##", "###"]

/-- The `placeholder_phrases` list in `assess_quality`. -/
def placeholder_phrases : List String :=
  ["placeholder text",
   "sample content",
   "example text",
   "lorem ipsum",
   "to be filled",
   "coming soon"]

/-- `quality.assess_quality(text, minimum_characters)`.  The final Python
branch `word_count >= min_words * 1.5` is modelled exactly by the integer
comparison `2 * word_count ≥ 3 * min_words`; both of its outcomes return
`"good"` in the source. -/
def assess_quality (text : String) (minimum_characters : Nat) : String :=
  let blob := pyStrip text
  if pyLen blob < minimum_characters then "poor"
  else
    let blob_lower := pyLower blob
    if failure_indicators.any (fun ind => pyIn ind blob_lower) then "poor"
    else
      let has_structure := section_indicators.any (fun ind => pyIn ind blob)
      let has_placeholders := placeholder_phrases.any (fun ph => pyIn ph blob_lower)
      let word_count := (pySplitWs blob).length
      let min_words := minimum_characters / 6
      if has_placeholders then "poor"
      else if word_count < min_words then "poor"
      else if has_structure || 2 * word_count ≥ 3 * min_words then "good"
      else "good"

/-! ### `search.py` -/

/-- One entry of the `organic` array in a Serper JSON response; each field
models `result.get(key, "")` being present or absent. -/
structure OrganicResult where
  title : Option String
  snippet : Option String
  link : Option String

/-- The parts of a Serper JSON response body that `web_search` reads.
`kgDescription` is `some d` exactly when `"knowledgeGraph" in data` and the
knowledge graph has a `"description"` key; `answerBox` is `some a` exactly
when `"answerBox" in data`, with `a` the value of `data["answerBox"].get("answer", "")`. -/
structure SerperData where
  organic : Option (List OrganicResult)
  kgDescription : Option String
  answerBox : Option String

/-- Outcome of the `requests.post` call in `web_search`: a 200 response with
parsed JSON, a non-200 status with body text, or a raised exception. -/
inductive HttpResult where
  | ok (data : SerperData)
  | status (code : Nat) (text : String)
  | exn (msg : String)

/-- Formatting of one organic result inside `web_search`. -/
def formatOrganic (r : OrganicResult) : String :=
  "• " ++ r.title.getD "" ++ "\n  " ++ r.snippet.getD "" ++ "\n  Source: " ++
    r.link.getD "" ++ "\n"

/-- `search.web_search(query, max_results)`, with the HTTP call replaced by
its outcome `http`. -/
def web_search (http : HttpResult) (query : String) (max_results : Nat) : String :=
  match http with
  | .ok data =>
      let results : List String :=
        match data.organic with
        | some os => (os.take max_results).map formatOrganic
        | none => []
      let results : List String :=
        match data.kgDescription with
        | some d => ("📝 Overview: " ++ d ++ "\n") :: results
        | none => results
      let results : List String :=
        match data.answerBox with
        | some answer =>
            if answer ≠ "" then ("💡 Quick Answer: " ++ answer ++ "\n") :: results
            else results
        | none => results
      "🔍 Web Search Results for: " ++ query ++ "\n\n" ++
        String.intercalate "\n" (results.take max_results)
  | .status code text =>
      "⚠️ Search API error: " ++ Nat.repr code ++ " - " ++ text
  | .exn msg =>
      "⚠️ Web search unavailable: " ++ msg ++ ". Using AI-only analysis."

/-! ### Pipeline state: the dict threaded through the workflow

`workflow.py` passes a plain Python `dict` between steps.  We embed it as an
association list from string keys to a value type covering every kind of
value the backend stores under a top-level key. -/

/-- One entry of the bounded event log (`memory.log_step`). -/
structure Event where
  timestamp : String
  section_key : String
  preview : String
deriving DecidableEq

/-- JSON values, for `marketing_content_json` (`json.loads` results). -/
inductive JVal where
  | jnull : JVal
  | jbool (b : Bool) : JVal
  | jnum (n : Int) : JVal
  | jstr (s : String) : JVal
  | jarr (elems : List JVal) : JVal
  | jobj (fields : List (String × JVal)) : JVal

/-- A value stored under a top-level key of the pipeline-state dict. -/
inductive Val where
  | vs (s : String) : Val
  | vn (n : Nat) : Val
  | vsm (m : List (String × String)) : Val
  | vnm (m : List (String × Nat)) : Val
  | vev (l : List Event) : Val
  | vj (j : JVal) : Val

/-- Association-list lookup: Python `d.get(k)` / `d[k]`. -/
def getA {α : Type} (m : List (String × α)) (k : String) : Option α :=
  (m.find? (fun p => p.1 == k)).map (·.2)

/-- Association-list update: Python `d[k] = v`. -/
def setA {α : Type} (m : List (String × α)) (k : String) (v : α) : List (String × α) :=
  (k, v) :: m.eraseP (fun p => p.1 == k)

/-- Whether the dict has the key: Python `k in d`. -/
def hasKey {α : Type} (m : List (String × α)) (k : String) : Bool :=
  (m.find? (fun p => p.1 == k)).isSome

/-- The pipeline state dict. -/
def PState : Type := List (String × Val)

/-- `state.get(k, d)` for a string-valued key. -/
def getStr (st : PState) (k : String) (d : String) : String :=
  match getA st k with
  | some (.vs s) => s
  | _ => d

/-- `state.get(k, d)` for a numeric key (used for `_mr_retries`). -/
def getNat (st : PState) (k : String) (d : Nat) : Nat :=
  match getA st k with
  | some (.vn n) => n
  | _ => d

/-- The `retries` bookkeeping dict of the state (empty when absent). -/
def getNM (st : PState) (k : String) : List (String × Nat) :=
  match getA st k with
  | some (.vnm m) => m
  | _ => []

/-- The `model_used` bookkeeping dict of the state (empty when absent). -/
def getSM (st : PState) (k : String) : List (String × String) :=
  match getA st k with
  | some (.vsm m) => m
  | _ => []

/-- The `recent_events` list of the state (empty when absent). -/
def getEv (st : PState) (k : String) : List Event :=
  match getA st k with
  | some (.vev l) => l
  | _ => []

/-- Python `d.setdefault(k, v)` restricted to its effect on the dict. -/
def setdefault (st : PState) (k : String) (v : Val) : PState :=
  if hasKey st k then st else setA st k v

/-! ### `generation.py`

`generate_with_retries` and `generate_with_retries_async` are textually
identical up to `await`; they are modelled by one function.  The two
`ChatGradient` clients and their failures become an oracle: `primary prompt i`
is the outcome of the `i`-th `llm.invoke(prompt)` attempt (`none` = raised),
`fallbackResp prompt` the outcome of the single `llm_fallback.invoke(prompt)`.
The function also returns its write log and a trace of backend calls and
backoff sleeps (in seconds, as exact rationals). -/

/-- The text-generation backend oracle (primary and fallback clients). -/
structure LLM where
  primary : String → Nat → Option String
  fallbackResp : String → Option String

/-- One observable action of `generate_with_retries`: a primary-backend call,
a `time.sleep(backoff_seconds)`, or a fallback-backend call. -/
inductive GenEvent where
  | pcall : GenEvent
  | sleep (seconds : ℚ) : GenEvent
  | fcall : GenEvent
deriving DecidableEq

/-- Is the event a primary-backend call? -/
def isPCall : GenEvent → Bool
  | .pcall => true
  | _ => false

/-- Is the event a fallback-backend call? -/
def isFCall : GenEvent → Bool
  | .fcall => true
  | _ => false

/-- The sleep durations occurring in a trace, in order. -/
def sleepsOf (tr : List GenEvent) : List ℚ :=
  tr.filterMap (fun e => match e with | .sleep q => some q | _ => none)

/-- The sentinel written when both backends fail. -/
def failureSentinel : String := "⚠️ Generation failed after retries and fallback."

/-- The retry loop of `generate_with_retries` (`while attempts <= max_retries`),
with `remaining = max_retries + 1 - attempts` as fuel.  Returns the state,
write log, trace, and whether the primary backend succeeded. -/
def genLoop (llm : LLM) (prompt section_key : String) :
    PState → List String → List GenEvent → Nat → ℚ → Nat →
    PState × List String × List GenEvent × Bool
  | st, wl, tr, _, _, 0 => (st, wl, tr, false)
  | st, wl, tr, attempts, backoff, remaining + 1 =>
    match llm.primary prompt attempts with
    | some content =>
        let st := setA st section_key (.vs content)
        let st := setA st "model_used" (.vsm (setA (getSM st "model_used") section_key primaryModelName))
        let st := setA st "retries" (.vnm (setA (getNM st "retries") section_key attempts))
        (st, wl ++ [section_key, "model_used", "retries"], tr ++ [.pcall], true)
    | none =>
        let st := setA st "retries" (.vnm (setA (getNM st "retries") section_key (attempts + 1)))
        genLoop llm prompt section_key st (wl ++ ["retries"])
          (tr ++ [.pcall, .sleep backoff]) (attempts + 1) (min (backoff * 2) 2) remaining

/-- `generation.generate_with_retries(prompt, section_key, state, max_retries)`
(and its `async` twin): primary attempts with exponential backoff, then one
fallback attempt, then the sentinel.  Returns `(state, write log, trace)`. -/
def generate_with_retries (llm : LLM) (prompt section_key : String) (state : PState)
    (max_retries : Nat) : PState × List String × List GenEvent :=
  let st := setdefault state "retries" (.vnm [])
  let st := setdefault st "model_used" (.vsm [])
  let r := genLoop llm prompt section_key st [] [] 0 (1 / 2) (max_retries + 1)
  if r.2.2.2 then (r.1, r.2.1, r.2.2.1)
  else
    match llm.fallbackResp prompt with
    | some content =>
        let st := setA r.1 section_key (.vs content)
        let st := setA st "model_used" (.vsm (setA (getSM st "model_used") section_key fallbackModelName))
        (st, r.2.1 ++ [section_key, "model_used"], r.2.2.1 ++ [.fcall])
    | none =>
        let st := setA r.1 section_key (.vs failureSentinel)
        let st := setA st "model_used" (.vsm (setA (getSM st "model_used") section_key "failed"))
        (st, r.2.1 ++ [section_key, "model_used"], r.2.2.1 ++ [.fcall])

/-- `generate_with_retries_async` has the same retry/backoff/fallback
semantics as the synchronous variant; the embedding shares one definition. -/
def generate_with_retries_async := generate_with_retries

/-! ### `memory.py` -/

/-- `memory.MAX_RECENT_EVENTS`. -/
def MAX_RECENT_EVENTS : Nat := 12

/-- `memory.SUMMARY_MIN_CHARS`. -/
def SUMMARY_MIN_CHARS : Nat := 1200

/-- `memory.log_step(state, section_key, content)`; `now` models
`datetime.now().isoformat()`.  Appends a capped event and keeps the last
`MAX_RECENT_EVENTS` entries.  Returns `(state, write log)`. -/
def log_step (now : String) (st : PState) (section_key content : String) :
    PState × List String :=
  let event : Event := ⟨now, section_key, pyTake content 240⟩
  let recent := getEv st "recent_events" ++ [event]
  let recent :=
    if recent.length > MAX_RECENT_EVENTS then lastN recent MAX_RECENT_EVENTS else recent
  (setA st "recent_events" (.vev recent), ["recent_events"])

/-- The corpus assembled by `maybe_update_memory_summary`: truncated excerpts
of market research, pricing, launch plan, plus the previews of the six most
recent events, joined by blank lines with empty parts dropped. -/
def memoryCorpus (st : PState) : String :=
  let corpus_parts : List String :=
    [pyTake (getStr st "market_research" "") 2000,
     pyTake (getStr st "pricing_strategy" "") 1200,
     pyTake (getStr st "launch_plan" "") 1200,
     "\nRecent events:\n" ++
       String.intercalate "\n" ((lastN (getEv st "recent_events") 6).map (·.preview))]
  String.intercalate "\n\n" (corpus_parts.filter (fun p => p ≠ ""))

/-- The compaction prompt built by `maybe_update_memory_summary`. -/
def memoryPrompt (existing corpus : String) : String :=
  "Summarize the product context and decisions so far in 10-14 bullet points. " ++
  "Preserve key facts, constraints, and decisions. Keep under 400-600 words.\n\n" ++
  "Existing summary (if any): " ++ existing ++ "\n\n" ++
  "New context to compress:\n" ++ corpus

/-- `memory.maybe_update_memory_summary(state)`.  Returns the state, the write
log, and the number of generation-backend invocations made (0 or 1); a failed
invocation (`none`) is swallowed and the previous summary kept. -/
def maybe_update_memory_summary (llm : LLM) (st : PState) :
    PState × List String × Nat :=
  let existing := getStr st "memory_summary" ""
  let corpus := memoryCorpus st
  if pyLen existing < SUMMARY_MIN_CHARS ∧ pyLen corpus < SUMMARY_MIN_CHARS then
    (st, [], 0)
  else
    match llm.primary (memoryPrompt existing corpus) 0 with
    | some summary => (setA st "memory_summary" (.vs summary), ["memory_summary"], 1)
    | none => (st, [], 1)

/-! ### `diagrams.py` -/

/-- `diagrams.create_launch_timeline_diagram`: a fixed mermaid block,
independent of the generated text. -/
def create_launch_timeline_diagram (_launch_plan_text : String) : String :=
  "```mermaid\ngraph TD\n    A[Pre-Launch Phase] --> B[Market Research]\n" ++
  "    B --> C[Product Development]\n    C --> D[Beta Testing]\n" ++
  "    D --> E[Launch Phase]\n    E --> F[Marketing Campaign]\n" ++
  "    F --> G[Sales Launch]\n    G --> H[Post-Launch Phase]\n" ++
  "    H --> I[Customer Feedback]\n    I --> J[Performance Analysis]\n" ++
  "    J --> K[Optimization]\n    \n    style A fill:#e1f5fe\n" ++
  "    style E fill:#f3e5f5\n    style H fill:#e8f5e8\n```"

/-! ### JSON handling in the `marketing_content` step

`json.loads` and `json.dumps` are Python-stdlib externals and appear as
oracles; the surrounding extraction logic (`re.search(r"..brace..[\s\S]*..brace..")`,
the prefix scan) is code of `workflow.py` and is embedded. -/

/-- Python truthiness of the `parsed` variable (`if not parsed`). -/
def jtruthy : Option JVal → Bool
  | none => false
  | some .jnull => false
  | some (.jbool b) => b
  | some (.jnum n) => n ≠ 0
  | some (.jstr s) => s ≠ ""
  | some (.jarr l) => !l.isEmpty
  | some (.jobj f) => !f.isEmpty

/-- The greedy brace regex search in `marketing_content`: the substring from
the first opening brace to the last closing brace, when that span is
non-degenerate. -/
def extractBraces (s : String) : Option String :=
  match s.data.findIdx? (fun c => c == '\x7b'), s.data.reverse.findIdx? (fun c => c == '\x7d') with
  | some i, some jr =>
      let j := s.data.length - 1 - jr
      if i < j then some ⟨(s.data.drop i).take (j - i + 1)⟩ else none
  | _, _ => none

/-- Model of Python `hay.find(needle)` restricted to the found case
(index of the first occurrence). -/
def findSubIdx (needle : List Char) : List Char → Option Nat
  | [] => if needle.isEmpty then some 0 else none
  | c :: t =>
      if decide (needle <+: (c :: t)) then some 0
      else (findSubIdx needle t).map (· + 1)

/-- The `for prefix in [...]` recovery loop of `marketing_content`: for each
marker present in the raw text, re-attempt a brace extraction after it; a
successful `json.loads` overwrites `parsed` and breaks. -/
def prefixLoop (jl : String → Option JVal) (raw : String) :
    Option JVal → List String → Option JVal
  | parsed, [] => parsed
  | parsed, p :: ps =>
      if pyIn p raw then
        let json_start := (findSubIdx p.data raw.data).getD 0 + pyLen p
        let json_text := pyStrip (pyDrop raw json_start)
        match extractBraces json_text with
        | some sub =>
            match jl sub with
            | some v => some v
            | none => prefixLoop jl raw parsed ps
        | none => prefixLoop jl raw parsed ps
      else prefixLoop jl raw parsed ps

/-- The markers tried by the recovery loop. -/
def recoveryMarkers : List String := ["```json", "```", "JSON:", "Response:"]

/-- The whole parse cascade of `marketing_content` on the stripped raw text:
direct `json.loads`; on that raising, the greedy brace extraction; if the
result is still falsy, the marker loop. -/
def parsedResult (jl : String → Option JVal) (raw : String) : Option JVal :=
  match jl raw with
  | some v => some v
  | none =>
      let parsed : Option JVal :=
        match extractBraces raw with
        | some sub => jl sub
        | none => none
      if jtruthy parsed then parsed else prefixLoop jl raw parsed recoveryMarkers

/-- The fixed fallback structure substituted on parse failure. -/
def fallback_content : JVal :=
  .jobj
    [("social_posts", .jobj
       [("x", .jarr [.jstr "Failed to generate structured content. Please try again."]),
        ("instagram", .jarr [.jstr "Failed to generate structured content. Please try again."]),
        ("linkedin", .jarr [.jstr "Failed to generate structured content. Please try again."])]),
     ("email_campaigns", .jarr
       [.jobj [("subject", .jstr "Content Generation Error"),
               ("content", .jstr "Please regenerate the marketing content.")]]),
     ("hashtags", .jarr [.jstr "#error", .jstr "#retry"]),
     ("influencer_briefs", .jarr
       [.jobj [("name", .jstr "Error"),
               ("brief", .jstr "Content generation failed. Please try again.")]]),
     ("press_release", .jstr "Content generation failed. Please try again."),
     ("content_calendar", .jarr
       [.jobj [("date", .jstr "N/A"), ("channel", .jstr "Error"),
               ("content", .jstr "Please regenerate content.")]])]

/-- The six keys the marketing-content schema requires at top level. -/
def requiredMarketingKeys : List String :=
  ["social_posts", "email_campaigns", "hashtags", "influencer_briefs",
   "press_release", "content_calendar"]

/-- Does a JSON value carry all the required top-level keys? -/
def hasRequiredKeys (v : JVal) : Bool :=
  match v with
  | .jobj fields => requiredMarketingKeys.all (fun k => hasKey fields k)
  | _ => false

/-- The normalization block of `marketing_content`: if the parse cascade
yields a dict it is dumped and stored, otherwise the fixed fallback structure
is substituted.  Returns the stored string and the stored structured form. -/
def normalizeMarketing (jloads : String → Option JVal) (jdumps : JVal → String)
    (raw : String) : String × JVal :=
  match parsedResult jloads raw with
  | some (.jobj fields) => (jdumps (.jobj fields), .jobj fields)
  | _ => (jdumps fallback_content, fallback_content)

/-! ### `workflow.py` steps

Each step takes the external world as an `Oracles` bundle: the generation
backend, the web-search HTTP outcome per query, `json.loads`/`json.dumps`,
and the clock reading used for event timestamps. -/

/-- The external collaborators of one step execution. -/
structure Oracles where
  llm : LLM
  searchHttp : String → HttpResult
  jloads : String → Option JVal
  jdumps : JVal → String
  now : String

/-- `workflow.market_research(state)`.  Returns the state and write log. -/
def market_research (o : Oracles) (st : PState) : PState × List String :=
  let pn := getStr st "product_name" ""
  let tm := getStr st "target_market" ""
  let search_query := pn ++ " " ++ tm ++ " market trends competitors 2024"
  let query_hint : Option String :=
    match getA st "_mr_query_hint" with
    | some (.vs h) => if h = "" then none else some h
    | _ => none
  let search_query :=
    match query_hint with
    | some h => search_query ++ " " ++ h
    | none => search_query
  let web_data := web_search (o.searchHttp search_query) search_query 5
  let prompt :=
    "Conduct comprehensive market research for \x27" ++ pn ++ "\x27 targeting \x27" ++
    tm ++ "\x27. " ++ "Use this live market data: " ++ web_data ++ "\n\n" ++
    "Provide analysis on:\n" ++ "1. Key competitors and market positioning\n" ++
    "2. Current market trends and opportunities\n" ++ "3. Target audience insights\n" ++
    "4. Market size and growth potential\n" ++ "5. SWOT analysis"
  let prompt :=
    match query_hint with
    | some h => prompt ++ "\n\nWhen analyzing, incorporate this hint: " ++ h ++ "."
    | none => prompt
  let g := generate_with_retries_async o.llm prompt "market_research" st 1
  let st := setA g.1 "market_research_quality"
    (.vs (assess_quality (getStr g.1 "market_research" "") MARKET_RESEARCH_MIN_CHARS))
  let l := log_step o.now st "market_research" (getStr st "market_research" "")
  let m := maybe_update_memory_summary o.llm l.1
  (m.1, g.2.1 ++ ["market_research_quality"] ++ l.2 ++ m.2.1)

/-- `workflow.product_description(state)`. -/
def product_description (o : Oracles) (st : PState) : PState × List String :=
  let prompt :=
    "Write a compelling e-commerce product description for \x27" ++
    getStr st "product_name" "" ++ "\x27. " ++ "Product details: " ++
    getStr st "product_details" "" ++ ". " ++ "Target market: " ++
    getStr st "target_market" "" ++ "."
  let g := generate_with_retries_async o.llm prompt "product_description" st 1
  let l := log_step o.now g.1 "product_description" (getStr g.1 "product_description" "")
  let m := maybe_update_memory_summary o.llm l.1
  (m.1, g.2.1 ++ l.2 ++ m.2.1)

/-- `workflow.pricing_strategy(state)`. -/
def pricing_strategy (o : Oracles) (st : PState) : PState × List String :=
  let pn := getStr st "product_name" ""
  let pricing_query := pn ++ " pricing competitor prices " ++ getStr st "target_market" "" ++ " 2024"
  let pricing_data := web_search (o.searchHttp pricing_query) pricing_query 5
  let prompt :=
    "Create a comprehensive pricing strategy for \x27" ++ pn ++ "\x27 based on:\n\n" ++
    "Market Research: " ++ getStr st "market_research" "" ++ "\n\n" ++
    "Product Details: " ++ getStr st "product_details" "" ++ "\n\n" ++
    "Current Pricing Data: " ++ pricing_data ++ "\n\n" ++
    "Include:\n" ++ "1. Competitive pricing analysis\n" ++ "2. Recommended pricing tiers\n" ++
    "3. Value-based pricing justification\n" ++ "4. Discount and promotion strategies\n" ++
    "5. Revenue projections"
  let g := generate_with_retries_async o.llm prompt "pricing_strategy" st 1
  let l := log_step o.now g.1 "pricing_strategy" (getStr g.1 "pricing_strategy" "")
  let m := maybe_update_memory_summary o.llm l.1
  (m.1, g.2.1 ++ l.2 ++ m.2.1)

/-- `workflow.launch_plan(state)`: generation plus the deterministic diagram
block appended to its own output. -/
def launch_plan (o : Oracles) (st : PState) : PState × List String :=
  let pn := getStr st "product_name" ""
  let prompt :=
    "Create a comprehensive step-by-step launch plan for \x27" ++ pn ++
    "\x27 targeting \x27" ++ getStr st "target_market" "" ++ "\x27. " ++
    "Based on market research: " ++ pyTake (getStr st "market_research" "") 500 ++
    "...\n\n" ++ "Include:\n" ++ "1. Pre-launch phase (8 weeks before)\n" ++
    "2. Launch phase (launch week)\n" ++ "3. Post-launch phase (8 weeks after)\n" ++
    "4. Key milestones and deadlines\n" ++ "5. Success metrics and KPIs\n" ++
    "6. Risk mitigation strategies\n\n" ++
    "Focus ONLY on the launch timeline, activities, and execution plan. Do not include pricing information."
  let g := generate_with_retries_async o.llm prompt "launch_plan" st 1
  let launch_text := getStr g.1 "launch_plan" ""
  let st := setA g.1 "launch_plan"
    (.vs (launch_text ++ "\n\n--- VISUAL TIMELINE ---\n" ++ create_launch_timeline_diagram launch_text))
  let l := log_step o.now st "launch_plan" (getStr st "launch_plan" "")
  let m := maybe_update_memory_summary o.llm l.1
  (m.1, g.2.1 ++ ["launch_plan"] ++ l.2 ++ m.2.1)

/-- The strict-JSON prompt of `workflow.marketing_content`. -/
def marketingPrompt (pn pdesc trending tm : String) : String :=
  "Generate comprehensive marketing content for \x27" ++ pn ++ "\x27 using the inputs below.\n\n" ++
  "Inputs:\n" ++ "- Product Description: " ++ pdesc ++ "\n" ++
  "- Trending Marketing Data: " ++ trending ++ "\n" ++ "- Target Market: " ++ tm ++ "\n\n" ++
  "CRITICAL: You must return ONLY a valid JSON object. No markdown, no code fences, no explanations, no extra text.\n\n" ++
  "Use this exact JSON schema:\n" ++
  "\x7b\n  \x22social_posts\x22: \x7b\n    \x22x\x22: [\x22Post 1 for X/Twitter\x22, \x22Post 2 for X/Twitter\x22],\n" ++
  "    \x22instagram\x22: [\x22Post 1 for Instagram\x22, \x22Post 2 for Instagram\x22],\n" ++
  "    \x22linkedin\x22: [\x22Post 1 for LinkedIn\x22, \x22Post 2 for LinkedIn\x22]\n  \x7d,\n" ++
  "  \x22email_campaigns\x22: [\n    \x7b \x22subject\x22: \x22Email Subject 1\x22, \x22content\x22: \x22Email content 1\x22 \x7d,\n" ++
  "    \x7b \x22subject\x22: \x22Email Subject 2\x22, \x22content\x22: \x22Email content 2\x22 \x7d\n  ],\n" ++
  "  \x22hashtags\x22: [\x22#hashtag1\x22, \x22#hashtag2\x22, \x22#hashtag3\x22],\n" ++
  "  \x22influencer_briefs\x22: [\n    \x7b \x22name\x22: \x22Influencer Name 1\x22, \x22brief\x22: \x22Brief for influencer 1\x22 \x7d,\n" ++
  "    \x7b \x22name\x22: \x22Influencer Name 2\x22, \x22brief\x22: \x22Brief for influencer 2\x22 \x7d\n  ],\n" ++
  "  \x22press_release\x22: \x22Full press release text here\x22,\n" ++
  "  \x22content_calendar\x22: [\n    \x7b \x22date\x22: \x222024-01-01\x22, \x22channel\x22: \x22Social Media\x22, \x22content\x22: \x22Content for this date\x22 \x7d,\n" ++
  "    \x7b \x22date\x22: \x222024-01-02\x22, \x22channel\x22: \x22Email\x22, \x22content\x22: \x22Content for this date\x22 \x7d\n  ]\n\x7d\n\n" ++
  "Generate 2-3 items for each array. Make content engaging and specific to the product. Return ONLY the JSON object."

/-- `workflow.marketing_content(state)`: generation, then the parse/normalize
cascade guaranteeing structured output.  The outer `except Exception` branch
of the source (a second, equally complete fallback structure) is unreachable
in the embedding because no modelled operation raises. -/
def marketing_content (o : Oracles) (st : PState) : PState × List String :=
  let tm := getStr st "target_market" ""
  let marketing_query := "viral marketing campaigns " ++ tm ++ " trending hashtags 2024"
  let trending_data := web_search (o.searchHttp marketing_query) marketing_query 5
  let prompt := marketingPrompt (getStr st "product_name" "")
    (getStr st "product_description" "") trending_data tm
  let g := generate_with_retries_async o.llm prompt "marketing_content" st 1
  let raw := pyStrip (getStr g.1 "marketing_content" "")
  let nrm := normalizeMarketing o.jloads o.jdumps raw
  let st := setA (setA g.1 "marketing_content" (.vs nrm.1)) "marketing_content_json" (.vj nrm.2)
  let l := log_step o.now st "marketing_content" (getStr st "marketing_content" "")
  let m := maybe_update_memory_summary o.llm l.1
  (m.1, g.2.1 ++ ["marketing_content", "marketing_content_json"] ++ l.2 ++ m.2.1)

/-! ### Parallel groups and routing -/

/-- The keys `parallel_phase_1` refuses to copy back during its merge. -/
def phase1Excluded : List String :=
  ["product_name", "product_details", "target_market", "market_research"]

/-- The keys `parallel_phase_2` refuses to copy back during its merge. -/
def phase2Excluded : List String :=
  ["product_name", "product_details", "target_market", "market_research",
   "product_description", "pricing_strategy"]

/-- The merge loop `for key, value in result.items(): if key not in ...`. -/
def mergeResult (st result : PState) (excluded : List String) : PState :=
  result.foldl (fun acc kv => if excluded.contains kv.1 then acc else setA acc kv.1 kv.2) st

/-- `workflow.parallel_phase_1(state)`: both members run on copies of the
state, and `asyncio.gather` hands the results back in task order for the
merge.  Each member sees its own backend responses (`o1`, `o2`). -/
def parallel_phase_1 (o1 o2 : Oracles) (st : PState) : PState :=
  let r1 := (product_description o1 st).1
  let r2 := (pricing_strategy o2 st).1
  mergeResult (mergeResult st r1 phase1Excluded) r2 phase1Excluded

/-- `workflow.parallel_phase_2(state)`. -/
def parallel_phase_2 (o1 o2 : Oracles) (st : PState) : PState :=
  let r1 := (launch_plan o1 st).1
  let r2 := (marketing_content o2 st).1
  mergeResult (mergeResult st r1 phase2Excluded) r2 phase2Excluded

/-- The loop hint installed by the router. -/
def mrQueryHint : String := "broaden keywords and include competitor names"

/-- `route_after_market_research(state)` from `build_workflow`: the returned
edge label together with the state the router mutated. -/
def route_after_market_research (st : PState) : String × PState :=
  let quality := getStr st "market_research_quality" "poor"
  let mr_retries := getNat st "_mr_retries" 0
  if quality = "poor" ∧ mr_retries < 2 then
    ("market_research",
     setA (setA st "_mr_retries" (.vn (mr_retries + 1))) "_mr_query_hint" (.vs mrQueryHint))
  else ("parallel_phase_1", st)

/-- The market-research phase of the compiled graph: run the step, route, and
self-loop while the router says so.  `fuel` bounds the iteration count so the
function is total; the routing cap is what actually stops the loop.  Returns
the state on exit towards `parallel_phase_1`, the number of `market_research`
executions, and whether the phase exited through the router (rather than by
exhausting fuel). -/
def mrPhase (o : Oracles) : PState → Nat → PState × Nat × Bool
  | st, 0 => (st, 0, false)
  | st, fuel + 1 =>
      let st1 := (market_research o st).1
      let rt := route_after_market_research st1
      if rt.1 = "market_research" then
        let rec_result := mrPhase o rt.2 fuel
        (rec_result.1, rec_result.2.1 + 1, rec_result.2.2)
      else (rt.2, 1, true)

/-! ### Module import resolution (`workflow.py` line 6) and the pipeline -/

/-- The names defined at top level of `search.py`. -/
def searchModuleDefs : List String := ["web_search"]

/-- The names `workflow.py` imports from `.search`. -/
def workflowSearchImports : List String := ["web_search", "web_search_async"]

/-- Resolution of a `from ... import a, b` statement: the first requested
name missing from the exporting module raises `ImportError` naming it. -/
def resolveFromImport (defs names : List String) : Except String Unit :=
  match names.find? (fun n => !(defs.contains n)) with
  | some n => .error n
  | none => .ok ()

/-- Loading the `workflow` module: its `from .search import ...` statement
must resolve before any definition in the module exists. -/
def workflowModuleLoad : Except String Unit :=
  resolveFromImport searchModuleDefs workflowSearchImports

/-- The body of a full pipeline run on the compiled graph, were the workflow
module to load: market-research loop, then the two parallel groups.  Each
node execution draws fresh oracles from the stream `os`. -/
def runPipelineBody (os : Nat → Oracles) (st : PState) (fuel : Nat) : PState :=
  let st1 := (mrPhase (os 0) st fuel).1
  let st2 := parallel_phase_1 (os 1) (os 2) st1
  parallel_phase_2 (os 3) (os 4) st2

/-- The entry state built by `main.generate_launch_plan` before
`workflow.invoke(state)` (sanitization abstracted into the inputs). -/
def entryState (product_name product_details target_market : String) : PState :=
  [("product_name", .vs product_name),
   ("product_details", .vs product_details),
   ("target_market", .vs target_market),
   ("max_retries", .vn 1),
   ("retries", .vnm []),
   ("model_used", .vsm [])]

/-- A pipeline run as reachable from `main.py`: importing the workflow module
first, then building and invoking the graph.  An import failure propagates
and no state is ever produced. -/
def run_pipeline (os : Nat → Oracles) (product_name product_details target_market : String)
    (fuel : Nat) : Except String PState :=
  match workflowModuleLoad with
  | .error e => .error e
  | .ok _ => .ok (runPipelineBody os (entryState product_name product_details target_market) fuel)

/-! ### `sessions.py` (in-process store path) and `main.refine_launch_plan`

With `REDIS_URL` unset (`config._redis = None`), the session store is the
module-level dict `session_store`.  Python passes the session's `data` dict
around by reference; the embedding threads explicit values and applies the
delta in `update_session` exactly as the source does. -/

/-- One record of a session's append-only history. -/
structure HistRec where
  timestamp : String
  action : String
  hdata : List (String × Val)

/-- A stored session (`created_at`, `last_accessed`, `data`, `history`). -/
structure Session where
  created_at : String
  last_accessed : String
  sdata : PState
  history : List HistRec

/-- The in-process `session_store` map. -/
def Store : Type := List (String × Session)

/-- `SessionManager.get_session` (in-memory branch): refresh `last_accessed`
and return the session.  Returns the session found and the updated store. -/
def get_session (now : String) (store : Store) (session_id : String) :
    Option Session × Store :=
  match getA store session_id with
  | some sess =>
      let sess : Session := ⟨sess.created_at, now, sess.sdata, sess.history⟩
      (some sess, setA store session_id sess)
  | none => (none, store)

/-- `SessionManager.update_session` (in-memory branch): apply the data delta,
refresh `last_accessed`, and append one history record whose `action` field
defaults to `"update"` in the source signature. -/
def update_session (now : String) (store : Store) (session_id : String)
    (data : List (String × Val)) (action : String) : Store :=
  match getA store session_id with
  | some sess =>
      let sess : Session :=
        ⟨sess.created_at, now,
         data.foldl (fun acc kv => setA acc kv.1 kv.2) sess.sdata,
         sess.history ++ [⟨now, action, data⟩]⟩
      setA store session_id sess
  | none => store

/-- Placeholder for `files.generate_launch_files` output (document rendering
is out of the modelled core; only the extra `update_session` call matters). -/
def filesPlaceholder : Val := .vs "downloadable-files"

/-- `main.refine_launch_plan` restricted to its effect on the session store:
look the session up, regenerate the section, log and compact memory, then
update the session (the source passes no `action`, so `update_session`
uses its default `"update"`); sections `launch_plan`/`marketing_content`
trigger a second file-regeneration update. -/
def refine (o : Oracles) (store : Store) (session_id section_to_refine
    refinement_instructions : String) : Store :=
  let gs := get_session o.now store session_id
  match gs.1 with
  | none => gs.2
  | some sess =>
      let store := gs.2
      let data := sess.sdata
      let section_content := getStr data section_to_refine ""
      let refinement_prompt :=
        "Here is the current " ++ section_to_refine ++ " for product \x27" ++
        getStr data "product_name" "" ++ "\x27:\n\n" ++ section_content ++
        "\n\nUser feedback: " ++ refinement_instructions ++
        "\n\nPlease provide an improved version that addresses the user\x27s feedback while maintaining quality and coherence."
      let data := (generate_with_retries o.llm refinement_prompt section_to_refine data 1).1
      let refined_content := getStr data section_to_refine ""
      let data := setA data section_to_refine (.vs refined_content)
      let data := (log_step o.now data section_to_refine refined_content).1
      let data := (maybe_update_memory_summary o.llm data).1
      let store := update_session o.now store session_id
        [(section_to_refine, .vs refined_content),
         ("recent_events", .vev (getEv data "recent_events")),
         ("memory_summary", .vs (getStr data "memory_summary" ""))] "update"
      if section_to_refine = "launch_plan" ∨ section_to_refine = "marketing_content" then
        update_session o.now store session_id [("downloadable_files", filesPlaceholder)] "update"
      else store

/-! ### Association-list lemmas -/

theorem getA_setA_self {α : Type} (m : List (String × α)) (k : String) (v : α) :
    getA (setA m k v) k = some v := by
  simp [getA, setA, List.find?]

theorem find?_eraseP_ne {α : Type} (m : List (String × α)) (k k' : String) (h : k' ≠ k) :
    (m.eraseP (fun p => p.1 == k)).find? (fun p => p.1 == k') =
      m.find? (fun p => p.1 == k') := by
  induction m with
  | nil => rfl
  | cons a t ih =>
      cases hak : (a.1 == k) with
      | true =>
          have hak' : (a.1 == k') = false := by
            rw [beq_iff_eq] at hak
            simp [hak, beq_iff_eq]
            exact fun hh => h hh.symm
          simp [List.eraseP_cons, hak, List.find?_cons, hak']
      | false =>
          cases hak' : (a.1 == k') with
          | true => simp [List.eraseP_cons, hak, List.find?_cons, hak']
          | false => simp [List.eraseP_cons, hak, List.find?_cons, hak', ih]

theorem getA_setA_ne {α : Type} (m : List (String × α)) (k k' : String) (v : α)
    (h : k' ≠ k) : getA (setA m k v) k' = getA m k' := by
  have hk : (k == k') = false := by
    simp [beq_iff_eq]
    exact fun hh => h hh.symm
  simp [getA, setA, List.find?_cons, hk, find?_eraseP_ne m k k' h]

theorem hasKey_setA {α : Type} (m : List (String × α)) (k k' : String) (v : α) :
    hasKey (setA m k v) k' = (k' == k || hasKey m k') := by
  by_cases h : k' = k
  · subst h
    simp [hasKey, setA, List.find?_cons]
  · have hk : (k == k') = false := by
      simp [beq_iff_eq]
      exact fun hh => h hh.symm
    simp [hasKey, setA, List.find?_cons, hk, find?_eraseP_ne m k k' h, beq_iff_eq, h]

theorem getA_setdefault_ne (st : PState) (k k' : String) (v : Val) (h : k' ≠ k) :
    getA (setdefault st k v) k' = getA st k' := by
  unfold setdefault
  by_cases hh : hasKey st k = true
  · simp [hh]
  · simp [hh, getA_setA_ne st k k' v h]

/-! ### Claim C1: the workflow module cannot load -/

/-- C1: the orchestrator module imports `web_search_async` from the search
module, which defines only `web_search`; hence loading the workflow module
fails at name resolution, and every pipeline run fails before any step
executes and never returns a pipeline state. -/
theorem c1_workflow_import_fails :
    workflowModuleLoad = Except.error "web_search_async" ∧
    ∀ (os : Nat → Oracles) (pn pd tm : String) (fuel : Nat),
      run_pipeline os pn pd tm fuel = Except.error "web_search_async" := by
  refine ⟨rfl, ?_⟩
  intro os pn pd tm fuel
  rfl

/-! ### Claim C5: the quality gate cascade -/

/-- The quality-gate policy exactly as the claim words it: trimmed length,
then failure indicators, then placeholders, then word count, else good. -/
def assess_quality_claim (text : String) (minimum_characters : Nat) : String :=
  let blob := pyStrip text
  if pyLen blob < minimum_characters then "poor"
  else if failure_indicators.any (fun ind => pyIn ind (pyLower blob)) then "poor"
  else if placeholder_phrases.any (fun ph => pyIn ph (pyLower blob)) then "poor"
  else if (pySplitWs blob).length < minimum_characters / 6 then "poor"
  else "good"

/-- C5: `assess_quality` is total and deterministic, returns exactly
`"good"` or `"poor"`, and agrees with the claimed check order
(length, failure indicators, placeholders, word count, default good). -/
theorem c5_assess_quality_cascade :
    ∀ (text : String) (minimum_characters : Nat),
      assess_quality text minimum_characters = assess_quality_claim text minimum_characters ∧
      (assess_quality text minimum_characters = "good" ∨
        assess_quality text minimum_characters = "poor") := by
  intro text mc
  have h : assess_quality text mc = assess_quality_claim text mc := by
    unfold assess_quality assess_quality_claim
    dsimp only
    split_ifs <;> rfl
  refine ⟨h, ?_⟩
  rw [h]
  unfold assess_quality_claim
  dsimp only
  split_ifs <;> simp

/-! ### Claim C10: the bounded event log -/

/-- C10: `log_step` appends a capped event (timestamp, step key, first 240
characters of the content); starting from a log of at most 12 entries the
log stays at most 12 entries, and when capacity would be exceeded the oldest
entry is the one evicted. -/
theorem c10_log_step_capacity :
    ∀ (now : String) (st : PState) (key content : String),
      (getEv st "recent_events").length ≤ 12 →
      getEv ((log_step now st key content).1) "recent_events" =
        (if (getEv st "recent_events").length < 12
         then getEv st "recent_events" ++ [⟨now, key, pyTake content 240⟩]
         else (getEv st "recent_events").drop 1 ++ [⟨now, key, pyTake content 240⟩]) ∧
      (getEv ((log_step now st key content).1) "recent_events").length ≤ 12 := by
  intro now st key content hlen
  set ev : Event := ⟨now, key, pyTake content 240⟩ with hev
  set old := getEv st "recent_events" with hold
  have hstep : (log_step now st key content).1 =
      setA st "recent_events"
        (.vev (if (old ++ [ev]).length > MAX_RECENT_EVENTS
               then lastN (old ++ [ev]) MAX_RECENT_EVENTS
               else old ++ [ev])) := rfl
  have hget : getEv ((log_step now st key content).1) "recent_events" =
      (if (old ++ [ev]).length > MAX_RECENT_EVENTS
       then lastN (old ++ [ev]) MAX_RECENT_EVENTS
       else old ++ [ev]) := by
    rw [hstep]
    simp [getEv, getA_setA_self]
  rw [hget]
  by_cases hc : old.length < 12
  · have h1 : ¬ (old ++ [ev]).length > MAX_RECENT_EVENTS := by
      simp [MAX_RECENT_EVENTS]
      omega
    rw [if_neg h1, if_pos hc]
    refine ⟨rfl, ?_⟩
    simp
    omega
  · have h12 : old.length = 12 := by omega
    have h1 : (old ++ [ev]).length > MAX_RECENT_EVENTS := by
      simp [MAX_RECENT_EVENTS]
      omega
    rw [if_pos h1, if_neg hc]
    have hdrop : lastN (old ++ [ev]) MAX_RECENT_EVENTS = old.drop 1 ++ [ev] := by
      unfold lastN
      have h2 : (old ++ [ev]).length - MAX_RECENT_EVENTS = 1 := by
        simp [MAX_RECENT_EVENTS]
        omega
      rw [h2]
      rw [List.drop_append_of_le_length (by omega)]
    rw [hdrop]
    refine ⟨rfl, ?_⟩
    simp
    omega

/-- Witness for C10 at a concrete input: the empty log admits an insertion
and stays within capacity. -/
theorem c10_log_step_capacity_witness :
    (getEv ([] : PState) "recent_events").length ≤ 12 ∧
    (getEv ((log_step "t0" ([] : PState) "k" "c").1) "recent_events").length ≤ 12 :=
  ⟨by decide, (c10_log_step_capacity "t0" [] "k" "c" (by decide)).2⟩

/-! ### Preservation lemmas: which keys a call can touch -/

theorem getA_genLoop_preserved (llm : LLM) (prompt key k : String)
    (hk1 : k ≠ key) (hk2 : k ≠ "retries") (hk3 : k ≠ "model_used") :
    ∀ (remaining attempts : Nat) (backoff : ℚ) (st : PState) (wl : List String)
      (tr : List GenEvent),
      getA ((genLoop llm prompt key st wl tr attempts backoff remaining).1) k = getA st k := by
  intro remaining
  induction remaining with
  | zero => intro attempts backoff st wl tr; rfl
  | succ r ih =>
      intro attempts backoff st wl tr
      unfold genLoop
      cases h : llm.primary prompt attempts with
      | some content =>
          simp only [h]
          rw [getA_setA_ne _ _ _ _ hk2, getA_setA_ne _ _ _ _ hk3, getA_setA_ne _ _ _ _ hk1]
      | none =>
          simp only [h]
          rw [ih, getA_setA_ne _ _ _ _ hk2]

theorem getA_generate_preserved (llm : LLM) (prompt key k : String)
    (hk1 : k ≠ key) (hk2 : k ≠ "retries") (hk3 : k ≠ "model_used")
    (st : PState) (mr : Nat) :
    getA ((generate_with_retries llm prompt key st mr).1) k = getA st k := by
  unfold generate_with_retries
  dsimp only
  split
  · rw [getA_genLoop_preserved llm prompt key k hk1 hk2 hk3,
      getA_setdefault_ne _ _ _ _ hk3, getA_setdefault_ne _ _ _ _ hk2]
  · cases hfb : llm.fallbackResp prompt with
    | some content =>
        simp only [hfb]
        rw [getA_setA_ne _ _ _ _ hk3, getA_setA_ne _ _ _ _ hk1,
          getA_genLoop_preserved llm prompt key k hk1 hk2 hk3,
          getA_setdefault_ne _ _ _ _ hk3, getA_setdefault_ne _ _ _ _ hk2]
    | none =>
        simp only [hfb]
        rw [getA_setA_ne _ _ _ _ hk3, getA_setA_ne _ _ _ _ hk1,
          getA_genLoop_preserved llm prompt key k hk1 hk2 hk3,
          getA_setdefault_ne _ _ _ _ hk3, getA_setdefault_ne _ _ _ _ hk2]

theorem getA_log_step_preserved (now : String) (st : PState) (key content k : String)
    (h : k ≠ "recent_events") :
    getA ((log_step now st key content).1) k = getA st k := by
  unfold log_step
  dsimp only
  rw [getA_setA_ne _ _ _ _ h]

theorem getA_memory_preserved (llm : LLM) (st : PState) (k : String)
    (h : k ≠ "memory_summary") :
    getA ((maybe_update_memory_summary llm st).1) k = getA st k := by
  unfold maybe_update_memory_summary
  dsimp only
  split
  · rfl
  · split
    · rw [getA_setA_ne _ _ _ _ h]
    · rfl

theorem getA_market_research_preserved (o : Oracles) (st : PState) (k : String)
    (h1 : k ≠ "market_research") (h2 : k ≠ "retries") (h3 : k ≠ "model_used")
    (h4 : k ≠ "market_research_quality") (h5 : k ≠ "recent_events")
    (h6 : k ≠ "memory_summary") :
    getA ((market_research o st).1) k = getA st k := by
  unfold market_research generate_with_retries_async
  dsimp only
  rw [getA_memory_preserved _ _ _ h6, getA_log_step_preserved _ _ _ _ _ h5,
    getA_setA_ne _ _ _ _ h4, getA_generate_preserved _ _ _ _ h1 h2 h3]

/-! ### Claim C4: the market-research self-loop cap -/

theorem route_cases (st : PState) :
    (getStr st "market_research_quality" "poor" = "poor" ∧ getNat st "_mr_retries" 0 < 2 ∧
      route_after_market_research st =
        ("market_research",
         setA (setA st "_mr_retries" (.vn (getNat st "_mr_retries" 0 + 1)))
           "_mr_query_hint" (.vs mrQueryHint)))
    ∨ (¬(getStr st "market_research_quality" "poor" = "poor" ∧
          getNat st "_mr_retries" 0 < 2) ∧
        route_after_market_research st = ("parallel_phase_1", st)) := by
  unfold route_after_market_research
  dsimp only
  by_cases h : getStr st "market_research_quality" "poor" = "poor" ∧ getNat st "_mr_retries" 0 < 2
  · left
    exact ⟨h.1, h.2, by rw [if_pos h]⟩
  · right
    exact ⟨h, by rw [if_neg h]⟩

theorem getNat_after_route_loop (st : PState) :
    getNat (setA (setA st "_mr_retries" (.vn (getNat st "_mr_retries" 0 + 1)))
        "_mr_query_hint" (.vs mrQueryHint)) "_mr_retries" 0 =
      getNat st "_mr_retries" 0 + 1 := by
  unfold getNat
  rw [getA_setA_ne _ _ _ _ (by decide), getA_setA_self]

theorem mrPhase_bound (o : Oracles) :
    ∀ (fuel : Nat) (st : PState), 2 - getNat st "_mr_retries" 0 < fuel →
      (mrPhase o st fuel).2.2 = true ∧
      (mrPhase o st fuel).2.1 ≤ 1 + (2 - getNat st "_mr_retries" 0) := by
  intro fuel
  induction fuel with
  | zero => intro st h; omega
  | succ f ih =>
      intro st h
      have hpres : getNat ((market_research o st).1) "_mr_retries" 0 =
          getNat st "_mr_retries" 0 := by
        unfold getNat
        rw [getA_market_research_preserved o st "_mr_retries" (by decide) (by decide)
          (by decide) (by decide) (by decide) (by decide)]
      have hstep : mrPhase o st (f + 1) =
          (if (route_after_market_research ((market_research o st).1)).1 = "market_research"
           then
             ((mrPhase o (route_after_market_research ((market_research o st).1)).2 f).1,
              (mrPhase o (route_after_market_research ((market_research o st).1)).2 f).2.1 + 1,
              (mrPhase o (route_after_market_research ((market_research o st).1)).2 f).2.2)
           else ((route_after_market_research ((market_research o st).1)).2, 1, true)) := rfl
      rcases route_cases ((market_research o st).1) with ⟨hq, hc, hroute⟩ | ⟨hn, hroute⟩
      · have heq : mrPhase o st (f + 1) =
            ((mrPhase o (setA (setA ((market_research o st).1) "_mr_retries"
                (.vn (getNat ((market_research o st).1) "_mr_retries" 0 + 1)))
                "_mr_query_hint" (.vs mrQueryHint)) f).1,
             (mrPhase o (setA (setA ((market_research o st).1) "_mr_retries"
                (.vn (getNat ((market_research o st).1) "_mr_retries" 0 + 1)))
                "_mr_query_hint" (.vs mrQueryHint)) f).2.1 + 1,
             (mrPhase o (setA (setA ((market_research o st).1) "_mr_retries"
                (.vn (getNat ((market_research o st).1) "_mr_retries" 0 + 1)))
                "_mr_query_hint" (.vs mrQueryHint)) f).2.2) := by
          rw [hstep, hroute]
          simp
        have hc2 : getNat (setA (setA ((market_research o st).1) "_mr_retries"
            (.vn (getNat ((market_research o st).1) "_mr_retries" 0 + 1)))
            "_mr_query_hint" (.vs mrQueryHint)) "_mr_retries" 0 =
            getNat st "_mr_retries" 0 + 1 := by
          rw [getNat_after_route_loop, hpres]
        rw [hpres] at hc
        have hrec := ih _ (by rw [hc2]; omega)
        rw [hc2] at hrec
        rw [heq]
        dsimp only
        exact ⟨hrec.1, by have := hrec.2; omega⟩
      · have heq : mrPhase o st (f + 1) = (((market_research o st).1), 1, true) := by
          rw [hstep, hroute]
          simp
        rw [heq]
        dsimp only
        exact ⟨rfl, by omega⟩

/-- C4: in every pipeline execution started from an entry state (no
`_mr_retries` key), the market-research phase exits through the router after
at most 3 total market-research attempts; and the router self-loops exactly
when the stored verdict is `"poor"` and the counter is below 2, incrementing
the counter and installing the query hint, otherwise proceeding to the first
parallel group. -/
theorem c4_mr_loop_capped :
    ∀ (o : Oracles) (st : PState) (fuel : Nat),
      3 ≤ fuel → getA st "_mr_retries" = none →
      ((mrPhase o st fuel).2.2 = true ∧ (mrPhase o st fuel).2.1 ≤ 3) ∧
      ∀ st' : PState,
        ((getStr st' "market_research_quality" "poor" = "poor" ∧
            getNat st' "_mr_retries" 0 < 2) →
          route_after_market_research st' =
            ("market_research",
             setA (setA st' "_mr_retries" (.vn (getNat st' "_mr_retries" 0 + 1)))
               "_mr_query_hint" (.vs mrQueryHint))) ∧
        (¬(getStr st' "market_research_quality" "poor" = "poor" ∧
            getNat st' "_mr_retries" 0 < 2) →
          route_after_market_research st' = ("parallel_phase_1", st')) := by
  intro o st fuel hf h0
  constructor
  · have hc : getNat st "_mr_retries" 0 = 0 := by
      unfold getNat
      rw [h0]
    have hb := mrPhase_bound o fuel st (by rw [hc]; omega)
    rw [hc] at hb
    exact ⟨hb.1, by omega⟩
  · intro st'
    constructor
    · intro h
      rcases route_cases st' with ⟨_, _, hr⟩ | ⟨hn, _⟩
      · exact hr
      · exact absurd h hn
    · intro h
      rcases route_cases st' with ⟨hq, hc2, _⟩ | ⟨_, hr⟩
      · exact absurd ⟨hq, hc2⟩ h
      · exact hr

/-- A concrete oracle bundle under which every backend call fails. -/
def oDemo : Oracles :=
  ⟨⟨fun _ _ => none, fun _ => none⟩, fun _ => .exn "down", fun _ => none,
   fun _ => "", "t0"⟩

/-- A concrete entry state. -/
def stDemo : PState := entryState "Prod" "Details about the product" "Market"

/-- Witness for C4: a concrete all-failing run exits the loop within 3
attempts. -/
theorem c4_mr_loop_capped_witness :
    (3 : Nat) ≤ 3 ∧ (mrPhase oDemo stDemo 3).2.2 = true ∧
      (mrPhase oDemo stDemo 3).2.1 ≤ 3 := by
  have h := c4_mr_loop_capped oDemo stDemo 3 (by decide) (by rfl)
  exact ⟨by decide, h.1.1, h.1.2⟩

/-! ### Claim C3: generation retry, backoff and fallback contract -/

/-- The backoff in effect before the `i`-th retry sleep:
`min(0.5 * 2^i, 2.0)` seconds. -/
def bkf (i : Nat) : ℚ := min ((1 / 2) * 2 ^ i) 2

/-- The number of consecutive primary failures starting at attempt `start`,
looking at most `b` attempts ahead. -/
def primaryFailStreakFrom (f : Nat → Option String) : Nat → Nat → Nat
  | _start, 0 => 0
  | start, b + 1 =>
      match f start with
      | some _ => 0
      | none => primaryFailStreakFrom f (start + 1) b + 1

/-- The canonical trace of `k` failing primary attempts starting at attempt
`start`: each is a primary call followed by a backoff sleep. -/
def canonicalTraceFrom : Nat → Nat → List GenEvent
  | _start, 0 => []
  | start, k + 1 =>
      GenEvent.pcall :: GenEvent.sleep (bkf start) :: canonicalTraceFrom (start + 1) k

theorem bkf_zero : bkf 0 = 1 / 2 := by
  unfold bkf
  norm_num

theorem bkf_succ (i : Nat) : min (bkf i * 2) 2 = bkf (i + 1) := by
  unfold bkf
  rcases le_total ((1 / 2 : ℚ) * 2 ^ i) 2 with h | h
  · rw [min_eq_left h, pow_succ, ← mul_assoc]
  · have ha : (2 : ℚ) ≤ 1 / 2 * 2 ^ (i + 1) := by
      rw [pow_succ, ← mul_assoc]
      linarith
    rw [min_eq_right h, min_eq_right ha]
    norm_num

theorem streak_succ_eq (f : Nat → Option String) (start b : Nat) :
    primaryFailStreakFrom f start (b + 1) =
      (match f start with
       | some _ => 0
       | none => primaryFailStreakFrom f (start + 1) b + 1) := rfl

theorem streak_le (f : Nat → Option String) :
    ∀ (b start : Nat), primaryFailStreakFrom f start b ≤ b := by
  intro b
  induction b with
  | zero => intro start; simp [primaryFailStreakFrom]
  | succ n ih =>
      intro start
      unfold primaryFailStreakFrom
      cases f start with
      | some c => simp
      | none =>
          simp only []
          have := ih (start + 1)
          omega

theorem streak_some (f : Nat → Option String) :
    ∀ (b start : Nat), primaryFailStreakFrom f start b < b →
      ∃ c, f (start + primaryFailStreakFrom f start b) = some c := by
  intro b
  induction b with
  | zero => intro start h; omega
  | succ n ih =>
      intro start h
      unfold primaryFailStreakFrom at h ⊢
      cases hf : f start with
      | some c =>
          simp only [hf]
          exact ⟨c, by simpa using hf⟩
      | none =>
          simp only [hf] at h ⊢
          have hlt : primaryFailStreakFrom f (start + 1) n < n := by omega
          obtain ⟨c, hc⟩ := ih (start + 1) hlt
          refine ⟨c, ?_⟩
          have harr : start + (primaryFailStreakFrom f (start + 1) n + 1) =
              start + 1 + primaryFailStreakFrom f (start + 1) n := by omega
          rw [harr]
          exact hc

theorem canonical_cons (start k : Nat) :
    canonicalTraceFrom start (k + 1) =
      [GenEvent.pcall, GenEvent.sleep (bkf start)] ++ canonicalTraceFrom (start + 1) k := rfl

theorem filter_pcall_canonical (start k : Nat) :
    (canonicalTraceFrom start k).filter isPCall = List.replicate k GenEvent.pcall := by
  induction k generalizing start with
  | zero => rfl
  | succ n ih =>
      rw [canonical_cons]
      simp [isPCall, ih (start + 1), List.replicate_succ]

theorem filter_fcall_canonical (start k : Nat) :
    (canonicalTraceFrom start k).filter isFCall = [] := by
  induction k generalizing start with
  | zero => rfl
  | succ n ih =>
      rw [canonical_cons]
      simp [isFCall, ih (start + 1)]

theorem sleeps_canonical (start k : Nat) :
    sleepsOf (canonicalTraceFrom start k) = (List.range k).map (fun i => bkf (start + i)) := by
  induction k generalizing start with
  | zero => rfl
  | succ n ih =>
      rw [canonical_cons]
      have hr : (List.range (n + 1)).map (fun i => bkf (start + i)) =
          bkf start :: (List.range n).map (fun i => bkf (start + 1 + i)) := by
        rw [List.range_succ_eq_map]
        simp only [List.map_cons, Nat.add_zero, List.map_map]
        congr 1
        apply List.map_congr_left
        intro a _
        simp only [Function.comp_apply]
        congr 1
        omega
      rw [hr]
      simp only [sleepsOf, List.cons_append, List.nil_append, List.filterMap_cons] at ih ⊢
      rw [ih (start + 1)]

theorem genLoop_trace (llm : LLM) (prompt key : String) :
    ∀ (remaining start : Nat) (st : PState) (wl : List String) (tr : List GenEvent),
      ((genLoop llm prompt key st wl tr start (bkf start) remaining).2.2.1 =
        tr ++ canonicalTraceFrom start (primaryFailStreakFrom (llm.primary prompt) start remaining) ++
          (if primaryFailStreakFrom (llm.primary prompt) start remaining < remaining
           then [GenEvent.pcall] else [])) ∧
      ((genLoop llm prompt key st wl tr start (bkf start) remaining).2.2.2 =
        decide (primaryFailStreakFrom (llm.primary prompt) start remaining < remaining)) := by
  intro remaining
  induction remaining with
  | zero =>
      intro start st wl tr
      constructor
      · simp [genLoop, primaryFailStreakFrom, canonicalTraceFrom]
      · simp [genLoop, primaryFailStreakFrom]
  | succ r ih =>
      intro start st wl tr
      unfold genLoop
      cases h : llm.primary prompt start with
      | some c =>
          simp only [h]
          constructor
          · simp [primaryFailStreakFrom, h, canonicalTraceFrom]
          · simp [primaryFailStreakFrom, h]
      | none =>
          simp only [h]
          rw [bkf_succ]
          have hstreak : primaryFailStreakFrom (llm.primary prompt) start (r + 1) =
              primaryFailStreakFrom (llm.primary prompt) (start + 1) r + 1 := by
            rw [streak_succ_eq]
            simp [h]
          have hih := ih (start + 1)
            (setA st "retries" (.vnm (setA (getNM st "retries") key (start + 1))))
            (wl ++ ["retries"]) (tr ++ [GenEvent.pcall, GenEvent.sleep (bkf start)])
          constructor
          · rw [hih.1, hstreak, canonical_cons]
            simp [Nat.succ_lt_succ_iff]
          · rw [hih.2, hstreak]
            simp [Nat.succ_lt_succ_iff]

theorem genLoop_state_success (llm : LLM) (prompt key : String)
    (hr : key ≠ "retries") (hm : key ≠ "model_used") :
    ∀ (remaining start : Nat) (st : PState) (wl : List String) (tr : List GenEvent),
      primaryFailStreakFrom (llm.primary prompt) start remaining < remaining →
      getA ((genLoop llm prompt key st wl tr start (bkf start) remaining).1) key =
        some (.vs ((llm.primary prompt
          (start + primaryFailStreakFrom (llm.primary prompt) start remaining)).getD "")) ∧
      getA (getSM ((genLoop llm prompt key st wl tr start (bkf start) remaining).1) "model_used")
          key = some primaryModelName := by
  intro remaining
  induction remaining with
  | zero => intro start st wl tr h; omega
  | succ r ih =>
      intro start st wl tr h
      unfold genLoop
      cases hf : llm.primary prompt start with
      | some c =>
          simp only [hf]
          have hstreak : primaryFailStreakFrom (llm.primary prompt) start (r + 1) = 0 := by
            rw [streak_succ_eq]
            simp [hf]
          constructor
          · rw [getA_setA_ne _ _ _ _ hr, getA_setA_ne _ _ _ _ hm, getA_setA_self, hstreak]
            simp [hf]
          · unfold getSM
            rw [getA_setA_ne _ _ _ _ (by decide : ("model_used" : String) ≠ "retries"),
              getA_setA_self]
            simp [getA_setA_self]
      | none =>
          simp only [hf]
          rw [bkf_succ]
          have hstreak : primaryFailStreakFrom (llm.primary prompt) start (r + 1) =
              primaryFailStreakFrom (llm.primary prompt) (start + 1) r + 1 := by
            rw [streak_succ_eq]
            simp [hf]
          rw [hstreak] at h
          have hlt : primaryFailStreakFrom (llm.primary prompt) (start + 1) r < r := by omega
          have hih := ih (start + 1)
            (setA st "retries" (.vnm (setA (getNM st "retries") key (start + 1))))
            (wl ++ ["retries"]) (tr ++ [GenEvent.pcall, GenEvent.sleep (bkf start)]) hlt
          rw [hstreak]
          have harr : start + (primaryFailStreakFrom (llm.primary prompt) (start + 1) r + 1) =
              start + 1 + primaryFailStreakFrom (llm.primary prompt) (start + 1) r := by omega
          rw [harr]
          exact hih

/-- The content and model name `generate_with_retries` records for the step,
as a function of the backend outcomes alone. -/
def genOutcome (llm : LLM) (prompt : String) (mr : Nat) : String × String :=
  let k := primaryFailStreakFrom (llm.primary prompt) 0 (mr + 1)
  if k < mr + 1 then ((llm.primary prompt k).getD "", primaryModelName)
  else
    match llm.fallbackResp prompt with
    | some c => (c, fallbackModelName)
    | none => (failureSentinel, "failed")

/-- C3: per invocation, the primary backend is attempted at most
`max_retries + 1` times with a sleep of `min(0.5 * 2^i, 2.0)` after the
`i`-th failure; the fallback backend is attempted exactly once and only
after primary exhaustion; and on double failure the step output is the
fixed sentinel with model tag `"failed"`.  The adapter is a total function:
it always returns a state. -/
theorem c3_generation_retry_contract :
    ∀ (llm : LLM) (prompt key : String) (st : PState) (mr : Nat),
      key ≠ "retries" → key ≠ "model_used" →
      ((generate_with_retries llm prompt key st mr).2.2 =
        canonicalTraceFrom 0 (primaryFailStreakFrom (llm.primary prompt) 0 (mr + 1)) ++
          (if primaryFailStreakFrom (llm.primary prompt) 0 (mr + 1) < mr + 1
           then [GenEvent.pcall] else [GenEvent.fcall])) ∧
      (((generate_with_retries llm prompt key st mr).2.2.filter isPCall).length ≤ mr + 1) ∧
      (((generate_with_retries llm prompt key st mr).2.2.filter isFCall).length =
        if primaryFailStreakFrom (llm.primary prompt) 0 (mr + 1) = mr + 1 then 1 else 0) ∧
      (sleepsOf ((generate_with_retries llm prompt key st mr).2.2) =
        (List.range (primaryFailStreakFrom (llm.primary prompt) 0 (mr + 1))).map bkf) ∧
      (getA ((generate_with_retries llm prompt key st mr).1) key =
        some (.vs (genOutcome llm prompt mr).1)) ∧
      (getA (getSM ((generate_with_retries llm prompt key st mr).1) "model_used") key =
        some (genOutcome llm prompt mr).2) := by
  intro llm prompt key st mr hkr hkm
  set k := primaryFailStreakFrom (llm.primary prompt) 0 (mr + 1) with hkdef
  have hkle : k ≤ mr + 1 := streak_le (llm.primary prompt) (mr + 1) 0
  set st0 := setdefault (setdefault st "retries" (.vnm [])) "model_used" (.vsm []) with hst0
  set r := genLoop llm prompt key st0 [] [] 0 (bkf 0) (mr + 1) with hrdef
  have htrace := genLoop_trace llm prompt key (mr + 1) 0 st0 [] []
  rw [← hrdef, ← hkdef] at htrace
  have hbody : generate_with_retries llm prompt key st mr =
      (if r.2.2.2 then (r.1, r.2.1, r.2.2.1)
       else
        match llm.fallbackResp prompt with
        | some content =>
            (setA (setA r.1 key (.vs content)) "model_used"
              (.vsm (setA (getSM (setA r.1 key (.vs content)) "model_used") key fallbackModelName)),
             r.2.1 ++ [key, "model_used"], r.2.2.1 ++ [.fcall])
        | none =>
            (setA (setA r.1 key (.vs failureSentinel)) "model_used"
              (.vsm (setA (getSM (setA r.1 key (.vs failureSentinel)) "model_used") key "failed")),
             r.2.1 ++ [key, "model_used"], r.2.2.1 ++ [.fcall])) := by
    unfold generate_with_retries
    rw [← bkf_zero]
  by_cases hk : k < mr + 1
  · have hfl : r.2.2.2 = true := by
      rw [htrace.2]
      exact decide_eq_true hk
    have hres : generate_with_retries llm prompt key st mr = (r.1, r.2.1, r.2.2.1) := by
      rw [hbody, hfl]
      simp
    have htr : r.2.2.1 = canonicalTraceFrom 0 k ++ [GenEvent.pcall] := by
      rw [htrace.1, if_pos hk]
      simp
    have hstate := genLoop_state_success llm prompt key hkr hkm (mr + 1) 0 st0 [] [] (by rw [← hkdef]; exact hk)
    rw [← hrdef, ← hkdef] at hstate
    have hout : genOutcome llm prompt mr = ((llm.primary prompt k).getD "", primaryModelName) := by
      unfold genOutcome
      rw [← hkdef]
      dsimp only
      rw [if_pos hk]
    rw [hres, hout]
    refine ⟨?_, ?_, ?_, ?_, ?_, ?_⟩
    · rw [htr, if_pos hk]
    · rw [htr, List.filter_append, filter_pcall_canonical]
      simp [isPCall]
      omega
    · rw [htr, List.filter_append, filter_fcall_canonical,
        if_neg (by omega : ¬ k = mr + 1)]
      simp [isFCall]
    · rw [htr]
      simp only [sleepsOf, List.filterMap_append]
      rw [← sleepsOf, sleeps_canonical]
      simp [sleepsOf]
    · rw [hstate.1]
      simp
    · exact hstate.2
  · have hkeq : k = mr + 1 := by omega
    have hfl : r.2.2.2 = false := by
      rw [htrace.2]
      simp [hk]
    have htr : r.2.2.1 = canonicalTraceFrom 0 k := by
      rw [htrace.1, if_neg hk]
      simp
    have hout1 : ∀ tail, (canonicalTraceFrom 0 k ++ tail).filter isPCall =
        List.replicate k GenEvent.pcall ++ tail.filter isPCall := by
      intro tail
      rw [List.filter_append, filter_pcall_canonical]
    cases hfb : llm.fallbackResp prompt with
    | some content =>
        have hres : generate_with_retries llm prompt key st mr =
            (setA (setA r.1 key (.vs content)) "model_used"
              (.vsm (setA (getSM (setA r.1 key (.vs content)) "model_used") key fallbackModelName)),
             r.2.1 ++ [key, "model_used"], r.2.2.1 ++ [.fcall]) := by
          rw [hbody, hfl]
          simp [hfb]
        have hout : genOutcome llm prompt mr = (content, fallbackModelName) := by
          unfold genOutcome
          rw [← hkdef]
          dsimp only
          rw [if_neg hk, hfb]
        rw [hres, hout]
        refine ⟨?_, ?_, ?_, ?_, ?_, ?_⟩
        · rw [htr, if_neg hk]
        · dsimp only
          rw [htr, hout1]
          simp [isPCall]
          omega
        · dsimp only
          rw [htr, List.filter_append, filter_fcall_canonical]
          simp [isFCall, hkeq]
        · dsimp only
          rw [htr]
          simp only [sleepsOf, List.filterMap_append]
          rw [← sleepsOf, sleeps_canonical]
          simp [sleepsOf]
        · dsimp only
          rw [getA_setA_ne _ _ _ _ hkm, getA_setA_self]
        · dsimp only
          unfold getSM
          rw [getA_setA_self]
          simp [getA_setA_self]
    | none =>
        have hres : generate_with_retries llm prompt key st mr =
            (setA (setA r.1 key (.vs failureSentinel)) "model_used"
              (.vsm (setA (getSM (setA r.1 key (.vs failureSentinel)) "model_used") key "failed")),
             r.2.1 ++ [key, "model_used"], r.2.2.1 ++ [.fcall]) := by
          rw [hbody, hfl]
          simp [hfb]
        have hout : genOutcome llm prompt mr = (failureSentinel, "failed") := by
          unfold genOutcome
          rw [← hkdef]
          dsimp only
          rw [if_neg hk, hfb]
        rw [hres, hout]
        refine ⟨?_, ?_, ?_, ?_, ?_, ?_⟩
        · rw [htr, if_neg hk]
        · dsimp only
          rw [htr, hout1]
          simp [isPCall]
          omega
        · dsimp only
          rw [htr, List.filter_append, filter_fcall_canonical]
          simp [isFCall, hkeq]
        · dsimp only
          rw [htr]
          simp only [sleepsOf, List.filterMap_append]
          rw [← sleepsOf, sleeps_canonical]
          simp [sleepsOf]
        · dsimp only
          rw [getA_setA_ne _ _ _ _ hkm, getA_setA_self]
        · dsimp only
          unfold getSM
          rw [getA_setA_self]
          simp [getA_setA_self]

/-- Witness for C3: with an always-failing primary and failing fallback and
`max_retries = 1`, the adapter makes 2 primary calls, 1 fallback call, and
records the sentinel with model `"failed"`. -/
theorem c3_generation_retry_contract_witness :
    (((generate_with_retries (⟨fun _ _ => none, fun _ => none⟩ : LLM) "p" "k" [] 1).2.2.filter
        isPCall).length ≤ 2) ∧
    (getA ((generate_with_retries (⟨fun _ _ => none, fun _ => none⟩ : LLM) "p" "k" [] 1).1)
        "k" = some (.vs failureSentinel)) := by
  have h := c3_generation_retry_contract (⟨fun _ _ => none, fun _ => none⟩ : LLM)
    "p" "k" [] 1 (by decide) (by decide)
  refine ⟨h.2.1, ?_⟩
  have hout : genOutcome (⟨fun _ _ => none, fun _ => none⟩ : LLM) "p" 1 =
      (failureSentinel, "failed") := by rfl
  have := h.2.2.2.2.1
  rw [hout] at this
  exact this

/-! ### Claim C6: memory compaction threshold -/

/-- A generation oracle whose primary backend always returns a fresh text. -/
def llmC6 : LLM := ⟨fun _ _ => some "fresh summary", fun _ => none⟩

/-- A state whose summary (700 chars) and corpus (688 chars) are each below
the 1200-character threshold while their sum is not. -/
def stC6 : PState :=
  [("memory_summary", .vs ⟨List.replicate 700 'a'⟩),
   ("market_research", .vs ⟨List.replicate 670 'b'⟩)]

set_option maxRecDepth 100000 in
/-- Counterexample to C6 as stated: `maybe_update_memory_summary` is a no-op
(state unchanged, zero backend invocations) on a state where the existing
summary plus the assembled corpus together reach 1388 ≥ 1200 characters —
the code requires each of the two lengths to be below the threshold
separately, not their sum. -/
theorem c6_memory_threshold_counterexample :
    (maybe_update_memory_summary llmC6 stC6).1 = stC6 ∧
    (maybe_update_memory_summary llmC6 stC6).2.2 = 0 ∧
    ¬ (pyLen (getStr stC6 "memory_summary" "") + pyLen (memoryCorpus stC6) < 1200) := by
  refine ⟨rfl, rfl, by decide⟩

/-- C6 (amended): `maybe_update_memory_summary` is a no-op (state unchanged
and zero backend invocations) exactly when the existing summary and the
assembled corpus are EACH shorter than 1200 characters; otherwise it invokes
the generation backend exactly once, and a failed invocation leaves the
previous summary unchanged with no error propagating. -/
theorem c6_memory_compaction_amended :
    ∀ (llm : LLM) (st : PState),
      (((maybe_update_memory_summary llm st).1 = st ∧
          (maybe_update_memory_summary llm st).2.2 = 0) ↔
        (pyLen (getStr st "memory_summary" "") < SUMMARY_MIN_CHARS ∧
          pyLen (memoryCorpus st) < SUMMARY_MIN_CHARS)) ∧
      (maybe_update_memory_summary llm st).2.2 ≤ 1 ∧
      ((maybe_update_memory_summary llm st).1 = st ∨
        ∃ s, llm.primary (memoryPrompt (getStr st "memory_summary" "") (memoryCorpus st)) 0 =
            some s ∧
          (maybe_update_memory_summary llm st).1 = setA st "memory_summary" (.vs s)) ∧
      (llm.primary (memoryPrompt (getStr st "memory_summary" "") (memoryCorpus st)) 0 = none →
        (maybe_update_memory_summary llm st).1 = st) := by
  intro llm st
  by_cases hcond : pyLen (getStr st "memory_summary" "") < SUMMARY_MIN_CHARS ∧
      pyLen (memoryCorpus st) < SUMMARY_MIN_CHARS
  · have hres : maybe_update_memory_summary llm st = (st, [], 0) := by
      unfold maybe_update_memory_summary
      rw [if_pos hcond]
    rw [hres]
    exact ⟨⟨fun _ => hcond, fun _ => ⟨rfl, rfl⟩⟩, by simp, Or.inl rfl, fun _ => rfl⟩
  · cases hp : llm.primary (memoryPrompt (getStr st "memory_summary" "") (memoryCorpus st)) 0 with
    | some s =>
        have hres : maybe_update_memory_summary llm st =
            (setA st "memory_summary" (.vs s), ["memory_summary"], 1) := by
          unfold maybe_update_memory_summary
          rw [if_neg hcond, hp]
        rw [hres]
        exact ⟨⟨fun h => absurd h.2 (by simp), fun h => absurd h hcond⟩, by simp,
          Or.inr ⟨s, rfl, rfl⟩, fun h => Option.noConfusion h⟩
    | none =>
        have hres : maybe_update_memory_summary llm st = (st, [], 1) := by
          unfold maybe_update_memory_summary
          rw [if_neg hcond, hp]
        rw [hres]
        exact ⟨⟨fun h => absurd h.2 (by simp), fun h => absurd h hcond⟩, by simp,
          Or.inl rfl, fun _ => rfl⟩

/-- Witness for C6 (amended) at a concrete input: on the empty state both
lengths are below the threshold, so the call is a no-op. -/
theorem c6_memory_compaction_amended_witness :
    (maybe_update_memory_summary llmC6 []).1 = ([] : PState) ∧
    (maybe_update_memory_summary llmC6 []).2.2 = 0 :=
  ((c6_memory_compaction_amended llmC6 []).1).mpr ⟨by decide, by decide⟩

/-! ### Claim C7: degraded search output is classified poor -/

theorem infix_extend_right {α : Type} (n X Y : List α) (h : n <:+: X) :
    n <:+: X ++ Y := by
  obtain ⟨s, t, hst⟩ := h
  exact ⟨s, t ++ Y, by rw [← hst]; simp⟩

theorem rstripL_append_cons (X Y : List Char) (c : Char) (hc : c.isWhitespace = false) :
    rstripL (X ++ c :: Y) = X ++ c :: rstripL Y := by
  unfold rstripL
  rw [List.reverse_append, List.reverse_cons, List.append_assoc, List.dropWhile_append]
  by_cases h : (Y.reverse.dropWhile Char.isWhitespace).isEmpty
  · rw [if_pos h]
    have hdw : ([c] ++ X.reverse).dropWhile Char.isWhitespace = c :: X.reverse := by
      show (c :: X.reverse).dropWhile Char.isWhitespace = c :: X.reverse
      rw [List.dropWhile_cons_of_neg (by simp [hc])]
    rw [hdw]
    have hnil : Y.reverse.dropWhile Char.isWhitespace = [] := by
      simpa [List.isEmpty_iff] using h
    rw [hnil]
    simp
  · rw [if_neg h]
    simp

theorem pyStripL_shape (a : Char) (ha : a.isWhitespace = false) (X Y : List Char)
    (c : Char) (hc : c.isWhitespace = false) :
    pyStripL ((a :: X) ++ c :: Y) = (a :: X) ++ c :: rstripL Y := by
  unfold pyStripL lstripL
  rw [List.cons_append, List.dropWhile_cons_of_neg (by simp [ha]), ← List.cons_append]
  exact rstripL_append_cons (a :: X) Y c hc

/-- If the needle occurs (lower-cased) in a non-whitespace-leading prefix `P`
and some non-whitespace character follows the region `mid`, the needle
survives `strip` and lower-casing of the whole string. -/
theorem strip_lower_infix_of_shape (needle : String) (a : Char) (r mid tl : List Char)
    (c : Char) (ha : a.isWhitespace = false) (hc : c.isWhitespace = false)
    (hsub : needle.data <:+: lowerL (a :: r)) :
    needle.data <:+: lowerL (pyStripL ((a :: r) ++ mid ++ c :: tl)) := by
  have hshape : pyStripL ((a :: r) ++ mid ++ c :: tl) =
      (a :: (r ++ mid)) ++ c :: rstripL tl := by
    have := pyStripL_shape a ha (r ++ mid) tl c hc
    simpa using this
  rw [hshape]
  have hlow : lowerL ((a :: (r ++ mid)) ++ c :: rstripL tl) =
      lowerL (a :: r) ++ lowerL (mid ++ c :: rstripL tl) := by
    unfold lowerL
    simp
  rw [hlow]
  exact infix_extend_right _ _ _ hsub

theorem assess_poor_of_indicator (s : String) (ind : String)
    (hmem : ind ∈ failure_indicators)
    (hsub : ind.data <:+: lowerL (pyStripL s.data)) :
    assess_quality s MARKET_RESEARCH_MIN_CHARS = "poor" := by
  unfold assess_quality
  dsimp only
  by_cases hlen : pyLen (pyStrip s) < MARKET_RESEARCH_MIN_CHARS
  · rw [if_pos hlen]
  · rw [if_neg hlen]
    have hany : (failure_indicators.any fun i => pyIn i (pyLower (pyStrip s))) = true := by
      rw [List.any_eq_true]
      exact ⟨ind, hmem, decide_eq_true hsub⟩
    rw [if_pos hany]

/-- C7: the search adapter is a total function (never raises), and each
degraded output — HTTP error status or transport exception — embeds the
failure reason in a placeholder string whose lower-casing contains one of the
quality gate's failure indicators, so `assess_quality` classifies it
`"poor"` at the default threshold. -/
theorem c7_search_degraded_poor :
    ∀ (query : String) (max_results : Nat) (code : Nat) (text msg : String),
      (pyIn "search api error:" (pyLower (web_search (.status code text) query max_results)) =
          true ∧
        assess_quality (web_search (.status code text) query max_results)
          MARKET_RESEARCH_MIN_CHARS = "poor") ∧
      (pyIn "web search unavailable:" (pyLower (web_search (.exn msg) query max_results)) =
          true ∧
        assess_quality (web_search (.exn msg) query max_results)
          MARKET_RESEARCH_MIN_CHARS = "poor") := by
  intro query max_results code text msg
  have hm : (" - " : String).data = [' ', '-', ' '] := by decide
  have hdata : (web_search (.status code text) query max_results).data =
      ('⚠' :: ("️ Search API error: " : String).data) ++
        ((Nat.repr code).data ++ [' ']) ++ '-' :: (' ' :: text.data) := by
    show ("⚠️ Search API error: " ++ Nat.repr code ++ " - " ++ text).data = _
    rw [String.data_append, String.data_append, String.data_append, hm]
    have hP : ("⚠️ Search API error: " : String).data =
        '⚠' :: ("️ Search API error: " : String).data := by decide
    rw [hP]
    simp
  have hsub1 : ("search api error:" : String).data <:+:
      lowerL ('⚠' :: ("️ Search API error: " : String).data) := by decide
  have hdata2 : (web_search (.exn msg) query max_results).data =
      ('⚠' :: ("️ Web search unavailable: " : String).data) ++
        (msg.data ++ (". Using AI-only analysis" : String).data) ++ '.' :: ([] : List Char) := by
    show ("⚠️ Web search unavailable: " ++ msg ++ ". Using AI-only analysis.").data = _
    rw [String.data_append, String.data_append]
    have hS : (". Using AI-only analysis." : String).data =
        (". Using AI-only analysis" : String).data ++ ['.'] := by decide
    rw [hS]
    have hP : ("⚠️ Web search unavailable: " : String).data =
        '⚠' :: ("️ Web search unavailable: " : String).data := by decide
    rw [hP]
    simp
  have hsub2 : ("web search unavailable:" : String).data <:+:
      lowerL ('⚠' :: ("️ Web search unavailable: " : String).data) := by decide
  refine ⟨⟨?_, ?_⟩, ⟨?_, ?_⟩⟩
  · apply decide_eq_true
    show ("search api error:" : String).data <:+:
      lowerL (web_search (.status code text) query max_results).data
    rw [hdata]
    unfold lowerL
    rw [List.map_append, List.map_append, List.append_assoc]
    exact infix_extend_right _ _ _ hsub1
  · apply assess_poor_of_indicator _ "search api error:" (by decide)
    rw [hdata]
    exact strip_lower_infix_of_shape "search api error:" '⚠'
      ("️ Search API error: " : String).data ((Nat.repr code).data ++ [' '])
      (' ' :: text.data) '-' (by decide) (by decide) hsub1
  · apply decide_eq_true
    show ("web search unavailable:" : String).data <:+:
      lowerL (web_search (.exn msg) query max_results).data
    rw [hdata2]
    unfold lowerL
    rw [List.map_append, List.map_append, List.append_assoc]
    exact infix_extend_right _ _ _ hsub2
  · apply assess_poor_of_indicator _ "web search unavailable:" (by decide)
    rw [hdata2]
    exact strip_lower_infix_of_shape "web search unavailable:" '⚠'
      ("️ Web search unavailable: " : String).data
      (msg.data ++ (". Using AI-only analysis" : String).data) ([] : List Char) '.'
      (by decide) (by decide) hsub2

/-! ### Claim C8: marketing content is always well-formed structured data -/

theorem normalizeMarketing_isObj (jl : String → Option JVal) (jd : JVal → String)
    (raw : String) : ∃ fields, (normalizeMarketing jl jd raw).2 = JVal.jobj fields := by
  unfold normalizeMarketing
  split
  · exact ⟨_, rfl⟩
  · exact ⟨_, rfl⟩

/-- C8: after the marketing-content step the structured field always holds a
JSON object: a dict produced by the parse cascade is stored as-is, any parse
failure substitutes the fixed fallback structure, the fallback carries all
six required keys, and the state field `marketing_content_json` is never
null or free text. -/
theorem c8_marketing_content_structured :
    ∀ (jl : String → Option JVal) (jd : JVal → String) (raw : String),
      ((normalizeMarketing jl jd raw).2 =
        (match parsedResult jl raw with
         | some (.jobj fields) => JVal.jobj fields
         | _ => fallback_content)) ∧
      (∃ fields, (normalizeMarketing jl jd raw).2 = JVal.jobj fields) ∧
      hasRequiredKeys fallback_content = true ∧
      ∀ (o : Oracles) (st : PState),
        ∃ fields, getA ((marketing_content o st).1) "marketing_content_json" =
          some (.vj (.jobj fields)) := by
  intro jl jd raw
  refine ⟨?_, normalizeMarketing_isObj jl jd raw, by decide, ?_⟩
  · cases hp : parsedResult jl raw with
    | none =>
        unfold normalizeMarketing
        rw [hp]
    | some v =>
        cases v <;> (unfold normalizeMarketing; rw [hp])
  · intro o st
    unfold marketing_content
    dsimp only
    rw [getA_memory_preserved _ _ _ (by decide),
      getA_log_step_preserved _ _ _ _ _ (by decide), getA_setA_self]
    obtain ⟨fields, hf⟩ := normalizeMarketing_isObj o.jloads o.jdumps
      (pyStrip (getStr ((generate_with_retries_async o.llm
        (marketingPrompt (getStr st "product_name" "") (getStr st "product_description" "")
          (web_search (o.searchHttp ("viral marketing campaigns " ++
            getStr st "target_market" "" ++ " trending hashtags 2024"))
            ("viral marketing campaigns " ++ getStr st "target_market" "" ++
              " trending hashtags 2024") 5)
          (getStr st "target_market" ""))
        "marketing_content" st 1).1) "marketing_content" ""))
    exact ⟨fields, by rw [hf]⟩

/-! ### Claim C2: parallel-group writes and merge -/

theorem hasKey_setA_mono {α : Type} (m : List (String × α)) (k k' : String) (v : α)
    (h : hasKey m k' = true) : hasKey (setA m k v) k' = true := by
  rw [hasKey_setA]
  simp [h]

theorem getA_none_iff_hasKey_false {α : Type} (m : List (String × α)) (k : String) :
    getA m k = none ↔ hasKey m k = false := by
  unfold getA hasKey
  cases m.find? (fun p => p.1 == k) <;> simp

theorem hasKey_log_step_mono (now : String) (st : PState) (key content k : String)
    (h : hasKey st k = true) : hasKey ((log_step now st key content).1) k = true := by
  unfold log_step
  dsimp only
  exact hasKey_setA_mono _ _ _ _ h

theorem hasKey_memory_mono (llm : LLM) (st : PState) (k : String)
    (h : hasKey st k = true) : hasKey ((maybe_update_memory_summary llm st).1) k = true := by
  unfold maybe_update_memory_summary
  dsimp only
  split
  · exact h
  · split
    · exact hasKey_setA_mono _ _ _ _ h
    · exact h

/-- What `genLoop` writes: every logged key is in the final state, and the
log only ever extends the incoming one with the section key, `retries` and
`model_used`. -/
theorem genLoop_writes (llm : LLM) (prompt key : String) :
    ∀ (remaining attempts : Nat) (backoff : ℚ) (st : PState) (wl : List String)
      (tr : List GenEvent),
      (∀ k ∈ wl, hasKey st k = true) →
      (∀ k ∈ (genLoop llm prompt key st wl tr attempts backoff remaining).2.1,
        hasKey (genLoop llm prompt key st wl tr attempts backoff remaining).1 k = true) ∧
      (∀ k ∈ (genLoop llm prompt key st wl tr attempts backoff remaining).2.1,
        k ∈ wl ∨ k = key ∨ k = "retries" ∨ k = "model_used") := by
  intro remaining
  induction remaining with
  | zero =>
      intro attempts backoff st wl tr hwl
      exact ⟨hwl, fun k hk => Or.inl hk⟩
  | succ r ih =>
      intro attempts backoff st wl tr hwl
      unfold genLoop
      cases h : llm.primary prompt attempts with
      | some content =>
          simp only [h]
          constructor
          · intro k hk
            rw [List.mem_append] at hk
            rcases hk with hk | hk
            · exact hasKey_setA_mono _ _ _ _ (hasKey_setA_mono _ _ _ _
                (hasKey_setA_mono _ _ _ _ (hwl k hk)))
            · simp only [List.mem_cons, List.not_mem_nil, or_false] at hk
              rcases hk with rfl | rfl | rfl
              · exact hasKey_setA_mono _ _ _ _ (hasKey_setA_mono _ _ _ _
                  (by rw [hasKey_setA]; simp))
              · exact hasKey_setA_mono _ _ _ _ (by rw [hasKey_setA]; simp)
              · rw [hasKey_setA]; simp
          · intro k hk
            rw [List.mem_append] at hk
            rcases hk with hk | hk
            · exact Or.inl hk
            · simp only [List.mem_cons, List.not_mem_nil, or_false] at hk
              rcases hk with rfl | rfl | rfl
              · exact Or.inr (Or.inl rfl)
              · exact Or.inr (Or.inr (Or.inr rfl))
              · exact Or.inr (Or.inr (Or.inl rfl))
      | none =>
          simp only [h]
          have hwl2 : ∀ k ∈ wl ++ ["retries"],
              hasKey (setA st "retries" (.vnm (setA (getNM st "retries") key (attempts + 1)))) k =
                true := by
            intro k hk
            rw [List.mem_append] at hk
            rcases hk with hk | hk
            · exact hasKey_setA_mono _ _ _ _ (hwl k hk)
            · simp only [List.mem_cons, List.not_mem_nil, or_false] at hk
              rcases hk with rfl
              rw [hasKey_setA]; simp
          have hih := ih (attempts + 1) (min (backoff * 2) 2)
            (setA st "retries" (.vnm (setA (getNM st "retries") key (attempts + 1))))
            (wl ++ ["retries"]) (tr ++ [GenEvent.pcall, GenEvent.sleep backoff]) hwl2
          refine ⟨hih.1, ?_⟩
          intro k hk
          rcases hih.2 k hk with hk' | hk'
          · rw [List.mem_append] at hk'
            rcases hk' with hk' | hk'
            · exact Or.inl hk'
            · simp only [List.mem_cons, List.not_mem_nil, or_false] at hk'
              rcases hk' with rfl
              exact Or.inr (Or.inr (Or.inl rfl))
          · exact Or.inr hk'

/-- What `generate_with_retries` writes: write-log keys exist in the result
and range over the section key, `retries` and `model_used` only. -/
theorem generate_writes (llm : LLM) (prompt key : String) (st : PState) (mr : Nat) :
    (∀ k ∈ (generate_with_retries llm prompt key st mr).2.1,
      hasKey (generate_with_retries llm prompt key st mr).1 k = true) ∧
    (∀ k ∈ (generate_with_retries llm prompt key st mr).2.1,
      k = key ∨ k = "retries" ∨ k = "model_used") := by
  unfold generate_with_retries
  dsimp only
  have hg := genLoop_writes llm prompt key (mr + 1) 0 (1 / 2)
    (setdefault (setdefault st "retries" (.vnm [])) "model_used" (.vsm [])) [] []
    (by intro k hk; simp at hk)
  split
  · refine ⟨hg.1, ?_⟩
    intro k hk
    rcases hg.2 k hk with h' | h'
    · simp at h'
    · exact h'
  · split
    · constructor
      · intro k hk
        rw [List.mem_append] at hk
        rcases hk with hk | hk
        · exact hasKey_setA_mono _ _ _ _ (hasKey_setA_mono _ _ _ _ (hg.1 k hk))
        · simp only [List.mem_cons, List.not_mem_nil, or_false] at hk
          rcases hk with rfl | rfl
          · exact hasKey_setA_mono _ _ _ _ (by rw [hasKey_setA]; simp)
          · rw [hasKey_setA]; simp
      · intro k hk
        rw [List.mem_append] at hk
        rcases hk with hk | hk
        · rcases hg.2 k hk with h' | h'
          · simp at h'
          · exact h'
        · simp only [List.mem_cons, List.not_mem_nil, or_false] at hk
          rcases hk with rfl | rfl
          · exact Or.inl rfl
          · exact Or.inr (Or.inr rfl)
    · constructor
      · intro k hk
        rw [List.mem_append] at hk
        rcases hk with hk | hk
        · exact hasKey_setA_mono _ _ _ _ (hasKey_setA_mono _ _ _ _ (hg.1 k hk))
        · simp only [List.mem_cons, List.not_mem_nil, or_false] at hk
          rcases hk with rfl | rfl
          · exact hasKey_setA_mono _ _ _ _ (by rw [hasKey_setA]; simp)
          · rw [hasKey_setA]; simp
      · intro k hk
        rw [List.mem_append] at hk
        rcases hk with hk | hk
        · rcases hg.2 k hk with h' | h'
          · simp at h'
          · exact h'
        · simp only [List.mem_cons, List.not_mem_nil, or_false] at hk
          rcases hk with rfl | rfl
          · exact Or.inl rfl
          · exact Or.inr (Or.inr rfl)

theorem log_writes (now : String) (st : PState) (key content : String) :
    (∀ k ∈ (log_step now st key content).2,
      hasKey (log_step now st key content).1 k = true) ∧
    (∀ k ∈ (log_step now st key content).2, k = "recent_events") := by
  unfold log_step
  dsimp only
  constructor
  · intro k hk
    simp only [List.mem_cons, List.not_mem_nil, or_false] at hk
    subst hk
    rw [hasKey_setA]
    simp
  · intro k hk
    simp only [List.mem_cons, List.not_mem_nil, or_false] at hk
    exact hk

theorem memory_writes (llm : LLM) (st : PState) :
    (∀ k ∈ (maybe_update_memory_summary llm st).2.1,
      hasKey (maybe_update_memory_summary llm st).1 k = true) ∧
    (∀ k ∈ (maybe_update_memory_summary llm st).2.1, k = "memory_summary") := by
  unfold maybe_update_memory_summary
  dsimp only
  split
  · constructor <;> (intro k hk; simp at hk)
  · split
    · constructor
      · intro k hk
        simp only [List.mem_cons, List.not_mem_nil, or_false] at hk
        subst hk
        rw [hasKey_setA]
        simp
      · intro k hk
        simp only [List.mem_cons, List.not_mem_nil, or_false] at hk
        exact hk
    · constructor <;> (intro k hk; simp at hk)

theorem product_description_writes (o : Oracles) (st : PState) :
    (∀ k ∈ (product_description o st).2,
      hasKey (product_description o st).1 k = true) ∧
    (∀ k ∈ (product_description o st).2,
      k ∈ (["product_description", "retries", "model_used", "recent_events",
        "memory_summary"] : List String)) := by
  unfold product_description generate_with_retries_async
  dsimp only
  constructor
  · intro k hk
    rw [List.mem_append, List.mem_append] at hk
    rcases hk with (hk | hk) | hk
    · exact hasKey_memory_mono _ _ _ (hasKey_log_step_mono _ _ _ _ _
        ((generate_writes _ _ _ _ _).1 k hk))
    · exact hasKey_memory_mono _ _ _ ((log_writes _ _ _ _).1 k hk)
    · exact (memory_writes _ _).1 k hk
  · intro k hk
    rw [List.mem_append, List.mem_append] at hk
    rcases hk with (hk | hk) | hk
    · rcases (generate_writes _ _ _ _ _).2 k hk with rfl | rfl | rfl <;> simp
    · rw [(log_writes _ _ _ _).2 k hk]
      simp
    · rw [(memory_writes _ _).2 k hk]
      simp

theorem pricing_strategy_writes (o : Oracles) (st : PState) :
    (∀ k ∈ (pricing_strategy o st).2,
      hasKey (pricing_strategy o st).1 k = true) ∧
    (∀ k ∈ (pricing_strategy o st).2,
      k ∈ (["pricing_strategy", "retries", "model_used", "recent_events",
        "memory_summary"] : List String)) := by
  unfold pricing_strategy generate_with_retries_async
  dsimp only
  constructor
  · intro k hk
    rw [List.mem_append, List.mem_append] at hk
    rcases hk with (hk | hk) | hk
    · exact hasKey_memory_mono _ _ _ (hasKey_log_step_mono _ _ _ _ _
        ((generate_writes _ _ _ _ _).1 k hk))
    · exact hasKey_memory_mono _ _ _ ((log_writes _ _ _ _).1 k hk)
    · exact (memory_writes _ _).1 k hk
  · intro k hk
    rw [List.mem_append, List.mem_append] at hk
    rcases hk with (hk | hk) | hk
    · rcases (generate_writes _ _ _ _ _).2 k hk with rfl | rfl | rfl <;> simp
    · rw [(log_writes _ _ _ _).2 k hk]
      simp
    · rw [(memory_writes _ _).2 k hk]
      simp

theorem getA_product_description_preserved (o : Oracles) (st : PState) (k : String)
    (h1 : k ≠ "product_description") (h2 : k ≠ "retries") (h3 : k ≠ "model_used")
    (h4 : k ≠ "recent_events") (h5 : k ≠ "memory_summary") :
    getA ((product_description o st).1) k = getA st k := by
  unfold product_description generate_with_retries_async
  dsimp only
  rw [getA_memory_preserved _ _ _ h5, getA_log_step_preserved _ _ _ _ _ h4,
    getA_generate_preserved _ _ _ _ h1 h2 h3]

theorem getA_pricing_strategy_preserved (o : Oracles) (st : PState) (k : String)
    (h1 : k ≠ "pricing_strategy") (h2 : k ≠ "retries") (h3 : k ≠ "model_used")
    (h4 : k ≠ "recent_events") (h5 : k ≠ "memory_summary") :
    getA ((pricing_strategy o st).1) k = getA st k := by
  unfold pricing_strategy generate_with_retries_async
  dsimp only
  rw [getA_memory_preserved _ _ _ h5, getA_log_step_preserved _ _ _ _ _ h4,
    getA_generate_preserved _ _ _ _ h1 h2 h3]

/-- No key occurs twice in the association list (Python dicts guarantee
this). -/
def keyNodup {α : Type} (m : List (String × α)) : Prop := (m.map Prod.fst).Nodup

theorem keyNodup_setA {α : Type} (m : List (String × α)) (k : String) (v : α)
    (h : keyNodup m) : keyNodup (setA m k v) := by
  induction m with
  | nil => simp [keyNodup, setA]
  | cons a t ih =>
      rw [keyNodup, List.map_cons, List.nodup_cons] at h
      obtain ⟨hna, hnt⟩ := h
      unfold setA
      rw [List.eraseP_cons]
      cases hak : (a.1 == k) with
      | true =>
          rw [beq_iff_eq] at hak
          simp only [cond_true]
          rw [keyNodup, List.map_cons, List.nodup_cons]
          exact ⟨hak ▸ hna, hnt⟩
      | false =>
          simp only [cond_false]
          have hih := ih hnt
          unfold setA keyNodup at hih
          rw [List.map_cons, List.nodup_cons] at hih
          obtain ⟨hk1, hk2⟩ := hih
          rw [keyNodup]
          simp only [List.map_cons, List.nodup_cons]
          refine ⟨?_, ?_, hk2⟩
          · simp only [List.mem_cons]
            rw [beq_eq_false_iff_ne] at hak
            rintro (h' | h')
            · exact hak h'.symm
            · exact hk1 h'
          · intro h'
            exact hna (((List.eraseP_sublist t).map Prod.fst).subset h')

theorem keyNodup_setdefault (st : PState) (k : String) (v : Val) (h : keyNodup st) :
    keyNodup (setdefault st k v) := by
  unfold setdefault
  split
  · exact h
  · exact keyNodup_setA st k v h

theorem keyNodup_genLoop (llm : LLM) (prompt key : String) :
    ∀ (remaining attempts : Nat) (backoff : ℚ) (st : PState) (wl : List String)
      (tr : List GenEvent), keyNodup st →
      keyNodup ((genLoop llm prompt key st wl tr attempts backoff remaining).1) := by
  intro remaining
  induction remaining with
  | zero => intro attempts backoff st wl tr h; exact h
  | succ r ih =>
      intro attempts backoff st wl tr h
      unfold genLoop
      cases hf : llm.primary prompt attempts with
      | some c =>
          simp only [hf]
          exact keyNodup_setA _ _ _ (keyNodup_setA _ _ _ (keyNodup_setA _ _ _ h))
      | none =>
          simp only [hf]
          exact ih _ _ _ _ _ (keyNodup_setA _ _ _ h)

theorem keyNodup_generate (llm : LLM) (prompt key : String) (st : PState) (mr : Nat)
    (h : keyNodup st) : keyNodup ((generate_with_retries llm prompt key st mr).1) := by
  unfold generate_with_retries
  dsimp only
  have hg := keyNodup_genLoop llm prompt key (mr + 1) 0 (1 / 2)
    (setdefault (setdefault st "retries" (.vnm [])) "model_used" (.vsm [])) [] []
    (keyNodup_setdefault _ _ _ (keyNodup_setdefault _ _ _ h))
  split
  · exact hg
  · split
    · exact keyNodup_setA _ _ _ (keyNodup_setA _ _ _ hg)
    · exact keyNodup_setA _ _ _ (keyNodup_setA _ _ _ hg)

theorem keyNodup_log_step (now : String) (st : PState) (key content : String)
    (h : keyNodup st) : keyNodup ((log_step now st key content).1) := by
  unfold log_step
  dsimp only
  exact keyNodup_setA _ _ _ h

theorem keyNodup_memory (llm : LLM) (st : PState) (h : keyNodup st) :
    keyNodup ((maybe_update_memory_summary llm st).1) := by
  unfold maybe_update_memory_summary
  dsimp only
  split
  · exact h
  · split
    · exact keyNodup_setA _ _ _ h
    · exact h

theorem keyNodup_product_description (o : Oracles) (st : PState) (h : keyNodup st) :
    keyNodup ((product_description o st).1) := by
  unfold product_description generate_with_retries_async
  dsimp only
  exact keyNodup_memory _ _ (keyNodup_log_step _ _ _ _ (keyNodup_generate _ _ _ _ _ h))

theorem keyNodup_pricing_strategy (o : Oracles) (st : PState) (h : keyNodup st) :
    keyNodup ((pricing_strategy o st).1) := by
  unfold pricing_strategy generate_with_retries_async
  dsimp only
  exact keyNodup_memory _ _ (keyNodup_log_step _ _ _ _ (keyNodup_generate _ _ _ _ _ h))

/-! Merge-loop lemmas -/

theorem getA_mergeResult_not_in (r : PState) :
    ∀ (st : PState) (excluded : List String) (k : String), hasKey r k = false →
      getA (mergeResult st r excluded) k = getA st k := by
  induction r with
  | nil => intro st excluded k _; rfl
  | cons a t ih =>
      intro st excluded k h
      unfold hasKey at h
      rw [List.find?_cons] at h
      cases hak : (a.1 == k) with
      | true => rw [hak] at h; simp at h
      | false =>
          rw [hak] at h
          show getA (mergeResult (if excluded.contains a.1 then st else setA st a.1 a.2) t excluded) k = getA st k
          rw [ih _ _ _ h]
          split
          · rfl
          · rw [getA_setA_ne]
            rw [beq_eq_false_iff_ne] at hak
            exact fun he => hak he.symm

theorem hasKey_mergeResult_mono (r : PState) :
    ∀ (st : PState) (excluded : List String) (k : String), hasKey st k = true →
      hasKey (mergeResult st r excluded) k = true := by
  induction r with
  | nil => intro st excluded k h; exact h
  | cons a t ih =>
      intro st excluded k h
      show hasKey (mergeResult (if excluded.contains a.1 then st else setA st a.1 a.2) t excluded) k = true
      apply ih
      split
      · exact h
      · exact hasKey_setA_mono _ _ _ _ h

theorem hasKey_mergeResult_of_result (r : PState) :
    ∀ (st : PState) (excluded : List String) (k : String),
      hasKey r k = true → k ∉ excluded →
      hasKey (mergeResult st r excluded) k = true := by
  induction r with
  | nil => intro st excluded k h _; simp [hasKey] at h
  | cons a t ih =>
      intro st excluded k h hex
      unfold hasKey at h
      rw [List.find?_cons] at h
      show hasKey (mergeResult (if excluded.contains a.1 then st else setA st a.1 a.2) t excluded) k = true
      cases hak : (a.1 == k) with
      | true =>
          rw [beq_iff_eq] at hak
          have hcont : ¬ excluded.contains a.1 = true := by
            rw [hak]
            exact fun hc => hex (List.mem_of_elem_eq_true hc)
          rw [if_neg hcont]
          apply hasKey_mergeResult_mono
          rw [hasKey_setA]
          simp [hak]
      | false =>
          rw [hak] at h
          exact ih _ _ _ h hex

theorem getA_eq_none_of_not_key {α : Type} (m : List (String × α)) (k : String)
    (h : k ∉ m.map Prod.fst) : getA m k = none := by
  unfold getA
  have hf : m.find? (fun p => p.1 == k) = none := by
    rw [List.find?_eq_none]
    intro x hx
    simp only [beq_iff_eq]
    intro he
    exact h (he ▸ List.mem_map_of_mem Prod.fst hx)
  rw [hf]
  rfl

/-- The merge loop, looked up at a key the result holds at most once: later
entries never shadow it, so the merged value is exactly the member's value
(or the accumulator's when the member never wrote the key). -/
theorem getA_mergeResult_of_keyNodup (r : PState) :
    ∀ (st : PState) (excluded : List String) (k : String), k ∉ excluded → keyNodup r →
      getA (mergeResult st r excluded) k =
        (match getA r k with
         | some v => some v
         | none => getA st k) := by
  induction r with
  | nil => intro st excluded k _ _; rfl
  | cons a t ih =>
      intro st excluded k hex hnd
      rw [keyNodup, List.map_cons, List.nodup_cons] at hnd
      obtain ⟨hna, hnt⟩ := hnd
      show getA (mergeResult (if excluded.contains a.1 then st else setA st a.1 a.2) t excluded) k = _
      rw [ih _ _ _ hex hnt]
      have hgcons : getA (a :: t) k =
          (if a.1 == k then some a.2 else getA t k) := by
        unfold getA
        rw [List.find?_cons]
        cases hak : (a.1 == k) <;> simp
      rw [hgcons]
      cases hak : (a.1 == k) with
      | true =>
          rw [beq_iff_eq] at hak
          have htn : getA t k = none := getA_eq_none_of_not_key t k (hak ▸ hna)
          have hcont : ¬ excluded.contains a.1 = true :=
            fun hc => hex (hak ▸ List.mem_of_elem_eq_true hc)
          rw [htn, if_neg hcont, hak, getA_setA_self]
          simp
      | false =>
          have hne : a.1 ≠ k := by
            rw [beq_eq_false_iff_ne] at hak
            exact hak
          cases hg : getA t k with
          | some v => simp [hg]
          | none =>
              simp only [Bool.false_eq_true, if_false]
              split
              · rfl
              · exact getA_setA_ne st a.1 k a.2 (fun he => hne he.symm)

set_option maxRecDepth 100000 in
/-- Counterexample to C2 as stated: in the first parallel group, both
`product_description` and `pricing_strategy` write the state key
`recent_events` (both also write `retries` and `model_used`), so the two
members' written key sets are not disjoint. -/
theorem c2_write_sets_not_disjoint_counterexample :
    "recent_events" ∈ (product_description oDemo stDemo).2 ∧
    "recent_events" ∈ (pricing_strategy oDemo stDemo).2 := by
  constructor <;> decide

/-- C2 (amended): the two members of the first parallel group both write the
bookkeeping keys, so their written key sets are not disjoint; however each
member's owned output field key is written only by it, and after the group
join — in the code's merge order or the swapped order — the merged state
contains every key either member wrote, with the owned output fields holding
the writing member's value in both orders. -/
theorem c2_parallel_group_amended :
    ∀ (o1 o2 : Oracles) (st : PState),
      keyNodup st →
      hasKey st "product_description" = false →
      hasKey st "pricing_strategy" = false →
      (∀ k ∈ (product_description o1 st).2 ++ (pricing_strategy o2 st).2,
        hasKey (parallel_phase_1 o1 o2 st) k = true) ∧
      (∀ k ∈ (product_description o1 st).2 ++ (pricing_strategy o2 st).2,
        hasKey (mergeResult (mergeResult st (pricing_strategy o2 st).1 phase1Excluded)
          (product_description o1 st).1 phase1Excluded) k = true) ∧
      (getA (parallel_phase_1 o1 o2 st) "product_description" =
        getA (product_description o1 st).1 "product_description" ∧
       getA (mergeResult (mergeResult st (pricing_strategy o2 st).1 phase1Excluded)
          (product_description o1 st).1 phase1Excluded) "product_description" =
        getA (product_description o1 st).1 "product_description") ∧
      (getA (parallel_phase_1 o1 o2 st) "pricing_strategy" =
        getA (pricing_strategy o2 st).1 "pricing_strategy" ∧
       getA (mergeResult (mergeResult st (pricing_strategy o2 st).1 phase1Excluded)
          (product_description o1 st).1 phase1Excluded) "pricing_strategy" =
        getA (pricing_strategy o2 st).1 "pricing_strategy") := by
  intro o1 o2 st hnd hpd hps
  have hnd1 : keyNodup (product_description o1 st).1 := keyNodup_product_description o1 st hnd
  have hnd2 : keyNodup (pricing_strategy o2 st).1 := keyNodup_pricing_strategy o2 st hnd
  have hstpd : getA st "product_description" = none :=
    (getA_none_iff_hasKey_false st _).mpr hpd
  have hstps : getA st "pricing_strategy" = none :=
    (getA_none_iff_hasKey_false st _).mpr hps
  have habs2pd : getA (pricing_strategy o2 st).1 "product_description" = none := by
    rw [getA_pricing_strategy_preserved o2 st _ (by decide) (by decide) (by decide)
      (by decide) (by decide)]
    exact hstpd
  have habs1ps : getA (product_description o1 st).1 "pricing_strategy" = none := by
    rw [getA_product_description_preserved o1 st _ (by decide) (by decide) (by decide)
      (by decide) (by decide)]
    exact hstps
  have hvoc1 : ∀ k ∈ (product_description o1 st).2, k ∉ phase1Excluded := by
    intro k hk
    have := (product_description_writes o1 st).2 k hk
    simp only [List.mem_cons, List.not_mem_nil, or_false] at this
    rcases this with rfl | rfl | rfl | rfl | rfl <;> decide
  have hvoc2 : ∀ k ∈ (pricing_strategy o2 st).2, k ∉ phase1Excluded := by
    intro k hk
    have := (pricing_strategy_writes o2 st).2 k hk
    simp only [List.mem_cons, List.not_mem_nil, or_false] at this
    rcases this with rfl | rfl | rfl | rfl | rfl <;> decide
  have hpdnotex : ("product_description" : String) ∉ phase1Excluded := by decide
  have hpsnotex : ("pricing_strategy" : String) ∉ phase1Excluded := by decide
  refine ⟨?_, ?_, ⟨?_, ?_⟩, ⟨?_, ?_⟩⟩
  · intro k hk
    rw [List.mem_append] at hk
    show hasKey (mergeResult (mergeResult st (product_description o1 st).1 phase1Excluded)
      (pricing_strategy o2 st).1 phase1Excluded) k = true
    rcases hk with hk | hk
    · exact hasKey_mergeResult_mono _ _ _ _
        (hasKey_mergeResult_of_result _ _ _ _
          ((product_description_writes o1 st).1 k hk) (hvoc1 k hk))
    · exact hasKey_mergeResult_of_result _ _ _ _
        ((pricing_strategy_writes o2 st).1 k hk) (hvoc2 k hk)
  · intro k hk
    rw [List.mem_append] at hk
    rcases hk with hk | hk
    · exact hasKey_mergeResult_of_result _ _ _ _
        ((product_description_writes o1 st).1 k hk) (hvoc1 k hk)
    · exact hasKey_mergeResult_mono _ _ _ _
        (hasKey_mergeResult_of_result _ _ _ _
          ((pricing_strategy_writes o2 st).1 k hk) (hvoc2 k hk))
  · show getA (mergeResult (mergeResult st (product_description o1 st).1 phase1Excluded)
      (pricing_strategy o2 st).1 phase1Excluded) "product_description" = _
    rw [getA_mergeResult_of_keyNodup _ _ _ _ hpdnotex hnd2, habs2pd]
    dsimp only
    rw [getA_mergeResult_of_keyNodup _ _ _ _ hpdnotex hnd1, hstpd]
    cases hv : getA (product_description o1 st).1 "product_description" <;> rfl
  · rw [getA_mergeResult_of_keyNodup _ _ _ _ hpdnotex hnd1]
    rw [getA_mergeResult_of_keyNodup _ _ _ _ hpdnotex hnd2, habs2pd]
    rw [hstpd]
    cases hv : getA (product_description o1 st).1 "product_description" <;> rfl
  · show getA (mergeResult (mergeResult st (product_description o1 st).1 phase1Excluded)
      (pricing_strategy o2 st).1 phase1Excluded) "pricing_strategy" = _
    rw [getA_mergeResult_of_keyNodup _ _ _ _ hpsnotex hnd2]
    rw [getA_mergeResult_of_keyNodup _ _ _ _ hpsnotex hnd1, habs1ps]
    rw [hstps]
    cases hv : getA (pricing_strategy o2 st).1 "pricing_strategy" <;> rfl
  · rw [getA_mergeResult_of_keyNodup _ _ _ _ hpsnotex hnd1, habs1ps]
    dsimp only
    rw [getA_mergeResult_of_keyNodup _ _ _ _ hpsnotex hnd2, hstps]
    cases hv : getA (pricing_strategy o2 st).1 "pricing_strategy" <;> rfl

set_option maxRecDepth 100000 in
/-- Witness for C2 (amended) at a concrete entry state: both members' write
logs land in the merged state. -/
theorem c2_parallel_group_amended_witness :
    keyNodup stDemo ∧
    ∀ k ∈ (product_description oDemo stDemo).2 ++ (pricing_strategy oDemo stDemo).2,
      hasKey (parallel_phase_1 oDemo oDemo stDemo) k = true :=
  ⟨by unfold keyNodup; decide,
   (c2_parallel_group_amended oDemo oDemo stDemo (by unfold keyNodup; decide) (by decide)
    (by decide)).1⟩

/-! ### Claim C9: refinement and the session history -/

/-- A concrete store holding one fresh session. -/
def storeDemo : Store :=
  [("s1", ⟨"t0", "t0", entryState "Prod" "Details about the product" "Market", []⟩)]

set_option maxRecDepth 1000000 in
/-- Counterexample to C9 as stated: refining `"pricing_strategy"` appends one
history record, but its action field is the constant `"update"` (the source
calls `update_session` without an `action` argument), not the changed field
name. -/
theorem c9_refine_action_counterexample :
    ((getA (refine oDemo storeDemo "s1" "pricing_strategy" "lower the price") "s1").map
      (fun s => s.history.map (fun h => h.action))) = some ["update"] ∧
    ("update" : String) ≠ "pricing_strategy" := by
  exact ⟨by decide, by decide⟩

/-- Looking up a session after `update_session` applied a delta: exactly one
history record is appended, carrying the given action and data. -/
theorem getA_update_session (now : String) (store : Store) (sid : String)
    (data : List (String × Val)) (action : String) (sess : Session)
    (h : getA store sid = some sess) :
    getA (update_session now store sid data action) sid =
      some ⟨sess.created_at, now,
        data.foldl (fun acc kv => setA acc kv.1 kv.2) sess.sdata,
        sess.history ++ [⟨now, action, data⟩]⟩ := by
  unfold update_session
  rw [h]
  exact getA_setA_self _ _ _

/-- C9 (amended): refining `"pricing_strategy"` on an existing session
appends exactly one history record; the action field of that record is the
constant `"update"` (not the changed field), and the changed field appears
among the keys of the data payload of that record. -/
theorem c9_refine_amended :
    ∀ (o : Oracles) (store : Store) (sid instr : String) (sess : Session),
      getA store sid = some sess →
      ((getA (refine o store sid "pricing_strategy" instr) sid).map
        (fun s => s.history.length)) = some (sess.history.length + 1) ∧
      ((getA (refine o store sid "pricing_strategy" instr) sid).map
        (fun s => s.history.map (fun r => r.action))) =
        some (sess.history.map (fun r => r.action) ++ ["update"]) ∧
      ((getA (refine o store sid "pricing_strategy" instr) sid).map
        (fun s => (s.history.getLast?).map
          (fun r => decide ("pricing_strategy" ∈ r.hdata.map Prod.fst)))) =
        some (some true) := by
  intro o store sid instr sess hsess
  have hgs : get_session o.now store sid =
      (some (⟨sess.created_at, o.now, sess.sdata, sess.history⟩ : Session),
       setA store sid ⟨sess.created_at, o.now, sess.sdata, sess.history⟩) := by
    unfold get_session
    rw [hsess]
  unfold refine
  rw [hgs]
  dsimp only
  rw [if_neg (by decide : ¬(("pricing_strategy" : String) = "launch_plan" ∨
    ("pricing_strategy" : String) = "marketing_content"))]
  rw [getA_update_session o.now _ sid _ "update" _ (getA_setA_self store sid _)]
  refine ⟨?_, ?_, ?_⟩
  · simp
  · simp
  · simp

set_option maxRecDepth 1000000 in
/-- Witness for C9 (amended) at a concrete session. -/
theorem c9_refine_amended_witness :
    ((getA (refine oDemo storeDemo "s1" "pricing_strategy" "lower the price") "s1").map
      (fun s => s.history.map (fun r => r.action))) =
      some (([] : List HistRec).map (fun r => r.action) ++ ["update"]) :=
  (c9_refine_amended oDemo storeDemo "s1" "lower the price"
    ⟨"t0", "t0", entryState "Prod" "Details about the product" "Market", []⟩ (by rfl)).2.1

end PLA
